import Mathlib

/-!
The mbus publish/subscribe bus (m.go)

A shallow embedding of the dispatcher side of `m.go`: the topic registry
(`o.trie`), `Bus.pub`, `Bus.do_sub` and `Bus.loop`.

Everything the dispatcher goroutine cannot decide by itself is read from an
environment `Env`: whether `ctx.Done()` is closed when a `select` runs, whether
a receiver takes an element from a channel while a `select` runs, which ready
case Go picks when several are ready, and the order in which `range` walks a
map.  The dispatcher numbers the `select` statements it executes (`Bus.clk`)
and asks the environment about the `clk`-th one, so that a statement proved
for every environment holds for every schedule of the other goroutines.

`pub` and `do_sub` call each other (`pub` evicts a slow consumer through
`do_sub`, `do_sub` publishes its notification through `pub`).  They are defined
by recursion on a bound on the depth to which the evictions nest and return
`none` when the bound is reached; `pub_total` and `do_sub_total` show that the
number of memberships of the registry is bound enough, `pub_mono` that a larger
bound gives the same result.
-/

namespace Mbus

/-- A `chan *Msg` value, by identity. -/
abbrev Chan := Nat

/-- The `interface{}` payload of a message: a reference owned by the caller, or
a conduit (the payload of the lifecycle notifications of `do_sub`). -/
inductive Data where
  | ref (n : Nat)
  | chan (c : Chan)
deriving DecidableEq, Repr

/-- `type Msg struct { Topic string; Data interface{} }`. -/
structure Msg where
  Topic : String
  Data : Data
deriving DecidableEq, Repr

/-- `New_msg(topic, data)`. -/
def New_msg (topic : String) (data : Data) : Msg :=
  { Topic := topic, Data := data }

/-- `type subscription struct { topics []string; c chan *Msg; on bool }`. -/
structure subscription where
  topics : List String
  c : Chan
  /-- The field `on` of the source (a reserved word here). -/
  on_ : Bool
deriving DecidableEq, Repr

/-- The arguments of one call
`w.Warning("cannot pub, increase chan size:", len(ch), ch, m.Topic)`. -/
structure Warning where
  len : Nat
  ch : Chan
  topic : String
deriving DecidableEq, Repr

/-- One delivery of `pub` that ended in the `time.After(pub_timer_fail)` case
(line 68): the number of the `select` that waited, `len(ch)` at that moment,
the conduit and the topic. -/
structure Stall where
  clk : Nat
  len : Nat
  ch : Chan
  topic : String
deriving DecidableEq, Repr

def Sub_channel_prefix : String := "sub_"

def Unsub_channel_prefix : String := "unsub_"

/-- The value stored under a topic: `map[chan *Msg]bool`, every stored value
being `true`; the list holds the keys. -/
abbrev ChanSet := List Chan

/-- Modelled from the spec: `critbitgo.Trie`, the type of `o.trie`, comes from a
package outside the repository.  `m.go` uses it through `Get`, `Set` and
`Delete` with exact keys only, as the spec's Topic Registry: a mapping from
topic to the set of subscriber conduits. -/
abbrev Trie := List (String × ChanSet)

/-- Modelled from the spec: `trie.Get(key)` of `critbitgo`, the spec's
`lookup(topic) -> optional set-of-conduits`. -/
def Get : Trie → String → Option ChanSet
  | [], _ => none
  | (k, v) :: r, key => if k = key then some v else Get r key

/-- Modelled from the spec: `trie.Set(key, v)` of `critbitgo`; it replaces the
value of an existing key and inserts the key otherwise. -/
def Set : Trie → String → ChanSet → Trie
  | [], key, v => [(key, v)]
  | (k, v0) :: r, key, v => if k = key then (k, v) :: r else (k, v0) :: Set r key v

/-- Modelled from the spec: `trie.Delete(key)` of `critbitgo`; the key has no
entry afterwards. -/
def Delete (t : Trie) (key : String) : Trie :=
  t.filter (fun kv => kv.1 ≠ key)

/-- `v[c] = true` on a `map[chan *Msg]bool`. -/
def mapInsert (v : ChanSet) (c : Chan) : ChanSet :=
  if c ∈ v then v else v ++ [c]

/-- `delete(v, c)` on a `map[chan *Msg]bool`. -/
def mapDelete (v : ChanSet) (c : Chan) : ChanSet :=
  v.filter (fun x => x ≠ c)

/-- `v, ok := trie.Get(topic); ok && v[ch]`. -/
def registered (t : Trie) (topic : String) (ch : Chan) : Bool :=
  match Get t topic with
  | some v => decide (ch ∈ v)
  | none => false

/-- The number of (topic, conduit) memberships of a registry. -/
def size (t : Trie) : Nat :=
  (t.map (fun kv => kv.2.length)).sum

/-- What the dispatcher cannot decide by itself. -/
structure Env where
  /-- `cap(ch)`. -/
  cap : Chan → Nat
  /-- `ctx.Done()` is closed when the `k`-th `select` runs (for a `select`
  that waits: it is closed before the wait ends). -/
  fired : Nat → Bool
  /-- When both the `ctx.Done()` case and the send case of the `k`-th `select`
  are ready, Go picks one at random: `true` picks `ctx.Done()`. -/
  pick : Nat → Bool
  /-- A receiver takes an element from the channel (or is waiting on it) while
  the `k`-th `select` runs. -/
  recv : Nat → Chan → Bool
  /-- The order in which a `range` started at time `k` produces the keys of a
  map. -/
  order : Nat → ChanSet → ChanSet

/-- The state the dispatcher goroutine owns or acts on.  `Drop_slow_consumers`,
`trie` and `w` are the fields of `Bus`; `len` and `sent` are the channels the
bus holds references to (fill level, and every message sent on the channel so
far, oldest first); `warned` records the calls made to the Warner and
`stalled` the deliveries that ended in the `time.After` case; `parked` is set
when the goroutine waits in a `select` none of whose cases ever becomes
ready. -/
structure Bus where
  Drop_slow_consumers : Bool
  trie : Trie
  /-- `o.w` implements `Warner`. -/
  w : Bool
  clk : Nat
  len : Chan → Nat
  sent : Chan → List Msg
  warned : List Warning
  stalled : List Stall
  parked : Bool

/-- `New_bus(ctx, warner)`, before any command is processed. -/
def New_bus (warner : Bool) : Bus :=
  { Drop_slow_consumers := false, trie := [], w := warner, clk := 0,
    len := fun _ => 0, sent := fun _ => [], warned := [], stalled := [], parked := false }

/-- One `select` statement has been executed. -/
def tick (o : Bus) : Bus :=
  { o with clk := o.clk + 1 }

/-- The case `ch <- m` of the current `select` can proceed: the buffer has
room, or a receiver takes an element. -/
def sendReady (e : Env) (o : Bus) (ch : Chan) : Bool :=
  decide (o.len ch < e.cap ch) || e.recv o.clk ch

/-- The effect of `ch <- m`. -/
def send (e : Env) (o : Bus) (ch : Chan) (m : Msg) : Bus :=
  { o with
    sent := Function.update o.sent ch (o.sent ch ++ [m])
    len := Function.update o.len ch
      (if o.len ch < e.cap ch then o.len ch + 1 else o.len ch) }

/-- The case a `select` over `<-o.ctx.Done()` and `ch <- m` takes. -/
inductive Case where
  | done
  | sent
  | neither
deriving DecidableEq, Repr

/-- The outcome of a `select` with the cases `<-o.ctx.Done()` and `ch <- m`;
`neither` is the `default` case, the `time.After` case, or waiting for ever,
according to the statement. -/
def selectCase (e : Env) (o : Bus) (ch : Chan) : Case :=
  if e.fired o.clk then
    if sendReady e o ch && !e.pick o.clk then Case.sent else Case.done
  else if sendReady e o ch then Case.sent
  else Case.neither

/-- `w.Warning("cannot pub, increase chan size:", len(ch), ch, m.Topic)`, when
`o.w` implements `Warner`. -/
def warn (o : Bus) (ch : Chan) (topic : String) : Bus :=
  if o.w then { o with warned := o.warned ++ [⟨o.len ch, ch, topic⟩] } else o

/-- The `time.After(pub_timer_fail)` case of the current `select` is taken: the
delivery of a message on `topic` to `ch` has timed out. -/
def stall (o : Bus) (ch : Chan) (topic : String) : Bus :=
  { o with stalled := o.stalled ++ [⟨o.clk, o.len ch, ch, topic⟩] }

/-- The body of `for ch := range v` in `pub`, over the keys still to visit.
`evict1 o ch` is the call
`o.do_sub(&subscription{topics: []string{m.Topic}, c: ch})`. -/
def pub_range (e : Env) (evict1 : Bus → Chan → Option Bus) (m : Msg) :
    List Chan → Bus → Option Bus
  | [], o => some o
  | ch :: rest, o =>
    -- select { case <-o.ctx.Done(): return; default: ... }
    if e.fired o.clk then some (tick o)
    else if o.Drop_slow_consumers then
      -- select { case <-o.ctx.Done(): return; case ch <- m: ; default: ... }
      match selectCase e (tick o) ch with
      | Case.done => some (tick (tick o))
      | Case.sent => pub_range e evict1 m rest (tick (send e (tick o) ch m))
      | Case.neither =>
        -- select { case <-o.ctx.Done(): return; case ch <- m: ;
        --          case <-time.After(pub_timer_fail): ... }
        match selectCase e (tick (tick o)) ch with
        | Case.done => some (tick (tick (tick o)))
        | Case.sent => pub_range e evict1 m rest (tick (send e (tick (tick o)) ch m))
        | Case.neither =>
          -- if v, ok := o.trie.Get([]byte(m.Topic)); ok && v.(map[chan *Msg]bool)[ch]
          if registered o.trie m.Topic ch then
            match evict1 (warn (tick (stall (tick (tick o)) ch m.Topic)) ch m.Topic) ch with
            | some o1 => pub_range e evict1 m rest o1
            | none => none
          else pub_range e evict1 m rest (tick (stall (tick (tick o)) ch m.Topic))
    else
      -- select { case <-o.ctx.Done(): ; case ch <- m: }
      match selectCase e (tick o) ch with
      | Case.done => pub_range e evict1 m rest (tick (tick o))
      | Case.sent => pub_range e evict1 m rest (tick (send e (tick o) ch m))
      | Case.neither => some { tick o with parked := true }

/-- The body of `pub`.  `range` produces the keys the map has when the loop
starts: while it runs, the only key taken from this map is the one being
visited (the evictions nested in the loop publish on longer topics). -/
def pub_body (e : Env) (evict1 : Bus → Chan → Option Bus) (o : Bus) (m : Msg) : Option Bus :=
  match Get o.trie m.Topic with
  | some v => pub_range e evict1 m (e.order o.clk v) o
  | none => some o

/-- The insertion of `do_sub` (`m.on`): lines 113-119. -/
def subscribe_topic (o : Bus) (topic : String) (c : Chan) : Bus :=
  match Get o.trie topic with
  | some v => { o with trie := Set o.trie topic (mapInsert v c) }
  | none => { o with trie := Set o.trie topic [c] }

/-- The removal of `do_sub` (`!m.on`): lines 129-137. -/
def unsubscribe_topic (o : Bus) (topic : String) (c : Chan) : Bus :=
  match Get o.trie topic with
  | some v =>
    if (mapDelete v c).length = 0 then { o with trie := Delete o.trie topic }
    else { o with trie := Set o.trie topic (mapDelete v c) }
  | none => o

/-- The loop of `do_sub` for `m.on`, over the topics still to process; `pub1`
is the call `o.pub`.  A dispatcher parked in a send goes no further. -/
def do_sub_on (e : Env) (pub1 : Bus → Msg → Option Bus) (c : Chan) :
    List String → Bus → Option Bus
  | [], o => some o
  | topic :: rest, o =>
    -- select { case <-o.ctx.Done(): return; default: ... }
    if e.fired o.clk then some (tick o)
    else
      match pub1 (subscribe_topic (tick o) topic c)
          (New_msg ( Sub_channel_prefix ++ topic) (Data.chan c)) with
      | some o1 => if o1.parked then some o1 else do_sub_on e pub1 c rest o1
      | none => none

/-- The loop of `do_sub` for `!m.on`. -/
def do_sub_off (e : Env) (pub1 : Bus → Msg → Option Bus) (c : Chan) :
    List String → Bus → Option Bus
  | [], o => some o
  | topic :: rest, o =>
    if e.fired o.clk then some (tick o)
    else
      match pub1 (unsubscribe_topic (tick o) topic c)
          (New_msg ( Unsub_channel_prefix ++ topic) (Data.chan c)) with
      | some o1 => if o1.parked then some o1 else do_sub_off e pub1 c rest o1
      | none => none

/-- The body of `do_sub`. -/
def do_sub_body (e : Env) (pub1 : Bus → Msg → Option Bus) (o : Bus) (m : subscription) :
    Option Bus :=
  if m.on_ then do_sub_on e pub1 m.c m.topics o
  else do_sub_off e pub1 m.c m.topics o

/-- The call `o.do_sub(&subscription{topics: []string{m.Topic}, c: ch})` of
`pub` (line 73); `pub1` is the `pub` that `do_sub` calls. -/
def evict (e : Env) (pub1 : Bus → Msg → Option Bus) (topic : String) (o : Bus) (ch : Chan) :
    Option Bus :=
  do_sub_body e pub1 o { topics := [topic], c := ch, on_ := false }

/-- `Bus.pub`.  `pub` and `do_sub` call each other; the first argument bounds
the depth to which the evictions of `pub` may nest (`none`: the bound was
reached). -/
def pub : Nat → Env → Bus → Msg → Option Bus
  | 0, e, o, m => pub_body e (fun _ _ => none) o m
  | d + 1, e, o, m => pub_body e (evict e (fun o2 m2 => pub d e o2 m2) m.Topic) o m

/-- `Bus.do_sub`. -/
def do_sub (d : Nat) (e : Env) (o : Bus) (m : subscription) : Option Bus :=
  do_sub_body e (fun o2 m2 => pub d e o2 m2) o m

/-- The values sent on `o.ch`: `*Msg` or `*subscription`. -/
inductive Cmd where
  | msg (m : Msg)
  | sub (s : subscription)
deriving DecidableEq, Repr

/-- The type switch of `loop` on a value received from `o.ch`. -/
def dispatch (d : Nat) (e : Env) (o : Bus) : Cmd → Option Bus
  | Cmd.msg t => pub d e o t
  | Cmd.sub t => do_sub d e o t

/-- The topic `"unsub_" + ... + "unsub_" + topic`, with `k` markers. -/
def unsubIter : Nat → String → String
  | 0, topic => topic
  | k + 1, topic => Unsub_channel_prefix ++ unsubIter k topic

/-- An environment in which `ctx.Done()` stays open, no receiver ever runs and
`range` walks a map in the order of the list. -/
def quietEnv (cap : Chan → Nat) : Env :=
  { cap := cap, fired := fun _ => false, pick := fun _ => false,
    recv := fun _ _ => false, order := fun _ v => v }

/-- What a relation `R` between the state before and after must satisfy to
hold across `pub` on a topic satisfying `Q`: it is a preorder, and each
elementary effect of `pub` and of the evictions it performs stays within it. -/
structure Steps (e : Env) (Q : String → Prop) (R : Bus → Bus → Prop) : Prop where
  r_refl : ∀ o, R o o
  r_trans : ∀ a b c, R a b → R b c → R a c
  r_tick : ∀ o, R o (tick o)
  r_send : ∀ o ch m, Q m.Topic → sendReady e o ch = true → R o (send e o ch m)
  r_park : ∀ o, o.Drop_slow_consumers = false → R o { o with parked := true }
  r_stall : ∀ o ch t, Q t → o.Drop_slow_consumers = true → e.cap ch ≤ o.len ch →
    e.recv o.clk ch = false → e.recv (o.clk - 1) ch = false → R o (stall o ch t)
  r_warn : ∀ o ch t, Q t → o.Drop_slow_consumers = true → e.cap ch ≤ o.len ch →
    (∃ k, e.recv k ch = false) → R o (warn o ch t)
  r_unsub : ∀ o ch t, Q t → o.Drop_slow_consumers = true → e.cap ch ≤ o.len ch →
    (∃ k, e.recv k ch = false) → registered o.trie t ch = true →
    R o (unsubscribe_topic o t ch)
  r_next : ∀ t, Q t → Q ( Unsub_channel_prefix ++ t)

/-- The same, with the timed-out delivery taken as one effect: `o` is the state
in which the `select` with the `time.After` case runs, and the delivery ends
without an eviction (the conduit is no longer registered), with an eviction cut
short by cancellation, or with the eviction. -/
structure Rule (e : Env) (Q : String → Prop) (R : Bus → Bus → Prop) : Prop where
  r_refl : ∀ o, R o o
  r_trans : ∀ a b c, R a b → R b c → R a c
  r_tick : ∀ o, R o (tick o)
  r_send : ∀ o ch m, Q m.Topic → sendReady e o ch = true → R o (send e o ch m)
  r_park : ∀ o, o.Drop_slow_consumers = false → R o { o with parked := true }
  r_timeout : ∀ o ch t, Q t → o.Drop_slow_consumers = true → e.cap ch ≤ o.len ch →
    e.recv o.clk ch = false → e.recv (o.clk - 1) ch = false →
    R o (tick (stall o ch t))
  r_abort : ∀ o ch t, Q t → o.Drop_slow_consumers = true → e.cap ch ≤ o.len ch →
    e.recv o.clk ch = false → e.recv (o.clk - 1) ch = false →
    registered o.trie t ch = true →
    R o (tick (warn (tick (stall o ch t)) ch t))
  r_evict : ∀ o ch t, Q t → o.Drop_slow_consumers = true → e.cap ch ≤ o.len ch →
    e.recv o.clk ch = false → e.recv (o.clk - 1) ch = false →
    registered o.trie t ch = true →
    R o (unsubscribe_topic (tick (warn (tick (stall o ch t)) ch t)) t ch)
  r_next : ∀ t, Q t → Q ( Unsub_channel_prefix ++ t)

/-- The eviction call made by `pub d`. -/
def evictAt : Nat → Env → String → Bus → Chan → Option Bus
  | 0, _, _ => fun _ _ => none
  | d + 1, e, topic => evict e (fun o2 m2 => pub d e o2 m2) topic

/-- No topic entry of the registry has an empty subscriber set. -/
def NoEmpty (t : Trie) : Prop :=
  ∀ kv ∈ t, kv.2 ≠ []

/-- `Bus.loop` over the values that arrive on `o.ch`, oldest first, up to the
moment the last of them has been processed or `loop` has returned through
`defer o.trie.Clear()`. -/
def loop (d : Nat) (e : Env) : List Cmd → Bus → Option Bus
  | [], o => some o
  | i :: rest, o =>
    -- select { case <-o.ctx.Done(): return; case i := <-o.ch: ... }
    if e.fired o.clk && e.pick o.clk then some { tick o with trie := [] }
    else
      match dispatch d e (tick o) i with
      | some o1 => if o1.parked then some o1 else loop d e rest o1
      | none => none

/-- The states in which the dispatcher can be between two commands: starting
from `New_bus`, the flag `Drop_slow_consumers` may be set by the owner of the
bus, receivers may take elements from the channels, `loop` executes its
`select`, processes a command (in any environment, to any nesting depth), and
on cancellation returns through `defer o.trie.Clear()`. -/
inductive Reachable : Bus → Prop where
  | init (warner : Bool) : Reachable (New_bus warner)
  | config (o : Bus) (b : Bool) : Reachable o → Reachable { o with Drop_slow_consumers := b }
  | drain (o : Bus) (len : Chan → Nat) : Reachable o → Reachable { o with len := len }
  | wait (o : Bus) : Reachable o → Reachable (tick o)
  | command (o o1 : Bus) (d : Nat) (e : Env) (c : Cmd) :
      Reachable o → dispatch d e o c = some o1 → Reachable o1
  | cleared (o : Bus) : Reachable o → Reachable { o with trie := [] }

/-- A bus with a Warner, the given policy and the given registry, whose
channels are all empty. -/
def busOf (drop : Bool) (t : Trie) : Bus :=
  { New_bus true with Drop_slow_consumers := drop, trie := t }

/-- The subscriber set of a topic: the conduits `range` walks in `pub` (none
when the topic has no entry). -/
def subscribers (t : Trie) (topic : String) : ChanSet :=
  match Get t topic with
  | some v => v
  | none => []

/-- The number of calls the Warner has received with conduit `c` and topic
`topic`. -/
def warnings (o : Bus) (topic : String) (c : Chan) : Nat :=
  (o.warned.filter (fun x => decide (x.ch = c ∧ x.topic = topic))).length

/-- The messages with topic `topic` sent on conduit `c` so far. -/
def received (o : Bus) (topic : String) (c : Chan) : List Msg :=
  (o.sent c).filter (fun x => decide (x.Topic = topic))

/-- The deliveries that timed out between the states `o` and `o1`. -/
def stallsSince (o o1 : Bus) : List Stall :=
  o1.stalled.drop o.stalled.length

/-- A delivery recorded as timed out did time out: the conduit was full and no
receiver took from it, neither at the immediate attempt nor during the wait. -/
def genuine (e : Env) (s : Stall) : Prop :=
  e.cap s.ch ≤ s.len ∧ e.recv s.clk s.ch = false ∧ e.recv (s.clk - 1) s.ch = false

/-! ## The registry -/

theorem Delete_cons (k0 : String) (v0 : ChanSet) (r : Trie) (k : String) :
    Delete ((k0, v0) :: r) k = if k0 = k then Delete r k else (k0, v0) :: Delete r k := by
  by_cases h : k0 = k <;> simp [Delete, List.filter_cons, h]

theorem Get_Set_same (t : Trie) (k : String) (v : ChanSet) : Get (Set t k v) k = some v := by
  induction t with
  | nil => simp [Set, Get]
  | cons kv r ih =>
    obtain ⟨k0, v0⟩ := kv
    by_cases h : k0 = k
    · simp [Set, Get, h]
    · simp [Set, Get, h, ih]

theorem Get_Set_other (t : Trie) (k k1 : String) (v : ChanSet) (hk : k ≠ k1) :
    Get (Set t k v) k1 = Get t k1 := by
  induction t with
  | nil => simp [Set, Get, hk]
  | cons kv r ih =>
    obtain ⟨k0, v0⟩ := kv
    by_cases h : k0 = k
    · subst h
      simp [Set, Get, hk]
    · by_cases h1 : k0 = k1
      · subst h1
        simp [Set, Get, h]
      · simp [Set, Get, h, h1, ih]

theorem Get_Delete_same (t : Trie) (k : String) : Get (Delete t k) k = none := by
  induction t with
  | nil => simp [Delete, Get]
  | cons kv r ih =>
    obtain ⟨k0, v0⟩ := kv
    by_cases h : k0 = k
    · simpa [Delete_cons, h] using ih
    · simpa [Delete_cons, h, Get] using ih

theorem Get_Delete_other (t : Trie) (k k1 : String) (hk : k ≠ k1) :
    Get (Delete t k) k1 = Get t k1 := by
  induction t with
  | nil => simp [Delete, Get]
  | cons kv r ih =>
    obtain ⟨k0, v0⟩ := kv
    by_cases h : k0 = k
    · subst h
      simpa [Delete_cons, Get, hk] using ih
    · by_cases h1 : k0 = k1
      · subst h1
        simp [Delete_cons, h, Get]
      · simpa [Delete_cons, h, Get, h1] using ih

theorem Get_mem (t : Trie) (k : String) (v : ChanSet) (h : Get t k = some v) : (k, v) ∈ t := by
  induction t with
  | nil => simp [Get] at h
  | cons kv r ih =>
    obtain ⟨k0, v0⟩ := kv
    by_cases h0 : k0 = k
    · simp [Get, h0] at h
      simp [h0, h]
    · simp [Get, h0] at h
      exact List.mem_cons_of_mem _ (ih h)

theorem size_cons (kv : String × ChanSet) (t : Trie) : size (kv :: t) = kv.2.length + size t := by
  simp [size]

theorem size_Set_some (t : Trie) (k : String) (v v0 : ChanSet) (h : Get t k = some v0) :
    size (Set t k v) + v0.length = size t + v.length := by
  induction t with
  | nil => simp [Get] at h
  | cons kv r ih =>
    obtain ⟨k0, v1⟩ := kv
    by_cases h0 : k0 = k
    · simp [Get, h0] at h
      subst h
      simp [Set, h0, size_cons]
      omega
    · simp [Get, h0] at h
      have := ih h
      simp [Set, h0, size_cons]
      omega

theorem size_Set_none (t : Trie) (k : String) (v : ChanSet) (h : Get t k = none) :
    size (Set t k v) = size t + v.length := by
  induction t with
  | nil => simp [Set, size]
  | cons kv r ih =>
    obtain ⟨k0, v1⟩ := kv
    by_cases h0 : k0 = k
    · simp [Get, h0] at h
    · simp [Get, h0] at h
      have := ih h
      simp [Set, h0, size_cons]
      omega

theorem size_Delete_le (t : Trie) (k : String) : size (Delete t k) ≤ size t := by
  induction t with
  | nil => simp [Delete]
  | cons kv r ih =>
    obtain ⟨k0, v1⟩ := kv
    by_cases h0 : k0 = k
    · simp only [Delete_cons, h0, size_cons, if_true]
      omega
    · simp only [Delete_cons, h0, size_cons, if_false]
      omega

theorem size_Delete_some (t : Trie) (k : String) (v0 : ChanSet) (h : Get t k = some v0) :
    size (Delete t k) + v0.length ≤ size t := by
  induction t with
  | nil => simp [Get] at h
  | cons kv r ih =>
    obtain ⟨k0, v1⟩ := kv
    by_cases h0 : k0 = k
    · simp [Get, h0] at h
      subst h
      have := size_Delete_le r k
      simp only [Delete_cons, h0, size_cons, if_true]
      omega
    · simp [Get, h0] at h
      have := ih h
      simp only [Delete_cons, h0, size_cons, if_false]
      omega

/-! ## Field projections of the elementary effects -/

@[simp] theorem tick_trie (o : Bus) : (tick o).trie = o.trie := rfl
@[simp] theorem tick_Drop (o : Bus) : (tick o).Drop_slow_consumers = o.Drop_slow_consumers := rfl
@[simp] theorem tick_w (o : Bus) : (tick o).w = o.w := rfl
@[simp] theorem tick_len (o : Bus) : (tick o).len = o.len := rfl
@[simp] theorem tick_sent (o : Bus) : (tick o).sent = o.sent := rfl
@[simp] theorem tick_warned (o : Bus) : (tick o).warned = o.warned := rfl
@[simp] theorem tick_parked (o : Bus) : (tick o).parked = o.parked := rfl
@[simp] theorem tick_clk (o : Bus) : (tick o).clk = o.clk + 1 := rfl

@[simp] theorem tick_stalled (o : Bus) : (tick o).stalled = o.stalled := rfl

@[simp] theorem stall_trie (o : Bus) (ch : Chan) (t : String) : (stall o ch t).trie = o.trie := rfl
@[simp] theorem stall_Drop (o : Bus) (ch : Chan) (t : String) :
    (stall o ch t).Drop_slow_consumers = o.Drop_slow_consumers := rfl
@[simp] theorem stall_w (o : Bus) (ch : Chan) (t : String) : (stall o ch t).w = o.w := rfl
@[simp] theorem stall_len (o : Bus) (ch : Chan) (t : String) : (stall o ch t).len = o.len := rfl
@[simp] theorem stall_sent (o : Bus) (ch : Chan) (t : String) : (stall o ch t).sent = o.sent := rfl
@[simp] theorem stall_warned (o : Bus) (ch : Chan) (t : String) :
    (stall o ch t).warned = o.warned := rfl
@[simp] theorem stall_parked (o : Bus) (ch : Chan) (t : String) :
    (stall o ch t).parked = o.parked := rfl
@[simp] theorem stall_clk (o : Bus) (ch : Chan) (t : String) : (stall o ch t).clk = o.clk := rfl
theorem stall_stalled (o : Bus) (ch : Chan) (t : String) :
    (stall o ch t).stalled = o.stalled ++ [⟨o.clk, o.len ch, ch, t⟩] := rfl

@[simp] theorem send_stalled (e : Env) (o : Bus) (ch : Chan) (m : Msg) :
    (send e o ch m).stalled = o.stalled := rfl
@[simp] theorem send_trie (e : Env) (o : Bus) (ch : Chan) (m : Msg) :
    (send e o ch m).trie = o.trie := rfl
@[simp] theorem send_Drop (e : Env) (o : Bus) (ch : Chan) (m : Msg) :
    (send e o ch m).Drop_slow_consumers = o.Drop_slow_consumers := rfl
@[simp] theorem send_w (e : Env) (o : Bus) (ch : Chan) (m : Msg) : (send e o ch m).w = o.w := rfl
@[simp] theorem send_warned (e : Env) (o : Bus) (ch : Chan) (m : Msg) :
    (send e o ch m).warned = o.warned := rfl
@[simp] theorem send_parked (e : Env) (o : Bus) (ch : Chan) (m : Msg) :
    (send e o ch m).parked = o.parked := rfl
@[simp] theorem send_clk (e : Env) (o : Bus) (ch : Chan) (m : Msg) :
    (send e o ch m).clk = o.clk := rfl

theorem send_sent_same (e : Env) (o : Bus) (ch : Chan) (m : Msg) :
    (send e o ch m).sent ch = o.sent ch ++ [m] := by
  simp [send]

theorem send_sent_other (e : Env) (o : Bus) (ch c : Chan) (m : Msg) (h : c ≠ ch) :
    (send e o ch m).sent c = o.sent c := by
  simp [send, Function.update, h]

theorem send_len_other (e : Env) (o : Bus) (ch c : Chan) (m : Msg) (h : c ≠ ch) :
    (send e o ch m).len c = o.len c := by
  simp [send, Function.update, h]

@[simp] theorem warn_trie (o : Bus) (ch : Chan) (t : String) : (warn o ch t).trie = o.trie := by
  unfold warn; split <;> rfl
@[simp] theorem warn_Drop (o : Bus) (ch : Chan) (t : String) :
    (warn o ch t).Drop_slow_consumers = o.Drop_slow_consumers := by
  unfold warn; split <;> rfl
@[simp] theorem warn_w (o : Bus) (ch : Chan) (t : String) : (warn o ch t).w = o.w := by
  unfold warn; split <;> rfl
@[simp] theorem warn_len (o : Bus) (ch : Chan) (t : String) : (warn o ch t).len = o.len := by
  unfold warn; split <;> rfl
@[simp] theorem warn_sent (o : Bus) (ch : Chan) (t : String) : (warn o ch t).sent = o.sent := by
  unfold warn; split <;> rfl
@[simp] theorem warn_parked (o : Bus) (ch : Chan) (t : String) :
    (warn o ch t).parked = o.parked := by
  unfold warn; split <;> rfl
@[simp] theorem warn_stalled (o : Bus) (ch : Chan) (t : String) :
    (warn o ch t).stalled = o.stalled := by
  unfold warn; split <;> rfl
@[simp] theorem warn_clk (o : Bus) (ch : Chan) (t : String) : (warn o ch t).clk = o.clk := by
  unfold warn; split <;> rfl

@[simp] theorem unsubscribe_Drop (o : Bus) (t : String) (c : Chan) :
    (unsubscribe_topic o t c).Drop_slow_consumers = o.Drop_slow_consumers := by
  unfold unsubscribe_topic; split <;> [split; skip] <;> rfl
@[simp] theorem unsubscribe_w (o : Bus) (t : String) (c : Chan) :
    (unsubscribe_topic o t c).w = o.w := by
  unfold unsubscribe_topic; split <;> [split; skip] <;> rfl
@[simp] theorem unsubscribe_len (o : Bus) (t : String) (c : Chan) :
    (unsubscribe_topic o t c).len = o.len := by
  unfold unsubscribe_topic; split <;> [split; skip] <;> rfl
@[simp] theorem unsubscribe_sent (o : Bus) (t : String) (c : Chan) :
    (unsubscribe_topic o t c).sent = o.sent := by
  unfold unsubscribe_topic; split <;> [split; skip] <;> rfl
@[simp] theorem unsubscribe_warned (o : Bus) (t : String) (c : Chan) :
    (unsubscribe_topic o t c).warned = o.warned := by
  unfold unsubscribe_topic; split <;> [split; skip] <;> rfl
@[simp] theorem unsubscribe_parked (o : Bus) (t : String) (c : Chan) :
    (unsubscribe_topic o t c).parked = o.parked := by
  unfold unsubscribe_topic; split <;> [split; skip] <;> rfl
@[simp] theorem unsubscribe_stalled (o : Bus) (t : String) (c : Chan) :
    (unsubscribe_topic o t c).stalled = o.stalled := by
  unfold unsubscribe_topic; split <;> [split; skip] <;> rfl
@[simp] theorem unsubscribe_clk (o : Bus) (t : String) (c : Chan) :
    (unsubscribe_topic o t c).clk = o.clk := by
  unfold unsubscribe_topic; split <;> [split; skip] <;> rfl

@[simp] theorem subscribe_Drop (o : Bus) (t : String) (c : Chan) :
    (subscribe_topic o t c).Drop_slow_consumers = o.Drop_slow_consumers := by
  unfold subscribe_topic; split <;> rfl
@[simp] theorem subscribe_w (o : Bus) (t : String) (c : Chan) :
    (subscribe_topic o t c).w = o.w := by
  unfold subscribe_topic; split <;> rfl
@[simp] theorem subscribe_len (o : Bus) (t : String) (c : Chan) :
    (subscribe_topic o t c).len = o.len := by
  unfold subscribe_topic; split <;> rfl
@[simp] theorem subscribe_sent (o : Bus) (t : String) (c : Chan) :
    (subscribe_topic o t c).sent = o.sent := by
  unfold subscribe_topic; split <;> rfl
@[simp] theorem subscribe_warned (o : Bus) (t : String) (c : Chan) :
    (subscribe_topic o t c).warned = o.warned := by
  unfold subscribe_topic; split <;> rfl
@[simp] theorem subscribe_parked (o : Bus) (t : String) (c : Chan) :
    (subscribe_topic o t c).parked = o.parked := by
  unfold subscribe_topic; split <;> rfl
@[simp] theorem subscribe_stalled (o : Bus) (t : String) (c : Chan) :
    (subscribe_topic o t c).stalled = o.stalled := by
  unfold subscribe_topic; split <;> rfl
@[simp] theorem subscribe_clk (o : Bus) (t : String) (c : Chan) :
    (subscribe_topic o t c).clk = o.clk := by
  unfold subscribe_topic; split <;> rfl

/-! ## The `select` statement -/

theorem selectCase_sent (e : Env) (o : Bus) (ch : Chan) (h : selectCase e o ch = Case.sent) :
    sendReady e o ch = true := by
  unfold selectCase at h
  by_cases hr : sendReady e o ch = true
  · exact hr
  · simp only [hr, Bool.false_and] at h
    split at h <;> simp at h

theorem selectCase_neither (e : Env) (o : Bus) (ch : Chan)
    (h : selectCase e o ch = Case.neither) :
    e.fired o.clk = false ∧ sendReady e o ch = false := by
  unfold selectCase at h
  by_cases hf : e.fired o.clk = true
  · simp only [hf, if_true] at h
    split at h <;> simp at h
  · by_cases hr : sendReady e o ch = true
    · simp [hf, hr] at h
    · simp at hf hr
      exact ⟨hf, hr⟩

theorem sendReady_false (e : Env) (o : Bus) (ch : Chan) (h : sendReady e o ch = false) :
    e.cap ch ≤ o.len ch ∧ e.recv o.clk ch = false := by
  simpa [sendReady] using h

/-! ## Relations that hold across `pub` and `do_sub` -/

theorem pub_range_rule (e : Env) (R : Bus → Bus → Prop) (evict1 : Bus → Chan → Option Bus)
    (m : Msg) (hrefl : ∀ o, R o o) (htrans : ∀ a b c, R a b → R b c → R a c)
    (htick : ∀ o, R o (tick o))
    (hpark : ∀ o, o.Drop_slow_consumers = false → R o { o with parked := true })
    (l : List Chan)
    (hsend : ∀ o ch, ch ∈ l → sendReady e o ch = true → R o (send e o ch m))
    (hout : ∀ o ch, ch ∈ l → o.Drop_slow_consumers = true → e.cap ch ≤ o.len ch →
      e.recv o.clk ch = false → e.recv (o.clk - 1) ch = false →
      registered o.trie m.Topic ch = false → R o (tick (stall o ch m.Topic)))
    (hev : ∀ o ch o1, ch ∈ l → o.Drop_slow_consumers = true → e.cap ch ≤ o.len ch →
      e.recv o.clk ch = false → e.recv (o.clk - 1) ch = false →
      registered o.trie m.Topic ch = true →
      evict1 (warn (tick (stall o ch m.Topic)) ch m.Topic) ch = some o1 → R o o1)
    (o o1 : Bus) (h : pub_range e evict1 m l o = some o1) : R o o1 := by
  induction l generalizing o with
  | nil =>
    simp only [pub_range, Option.some.injEq] at h
    subst h
    exact hrefl o
  | cons ch rest ih =>
    have ih1 := ih (fun o c hc => hsend o c (List.mem_cons_of_mem _ hc))
      (fun o c hc => hout o c (List.mem_cons_of_mem _ hc))
      (fun o c o1 hc => hev o c o1 (List.mem_cons_of_mem _ hc))
    have hmem : ch ∈ ch :: rest := List.mem_cons_self _ _
    have t2 : R o (tick (tick o)) := htrans _ _ _ (htick o) (htick _)
    rw [pub_range] at h
    split at h
    · simp only [Option.some.injEq] at h
      subst h
      exact htick o
    · split at h
      · rename_i hdrop
        split at h
        · simp only [Option.some.injEq] at h
          subst h
          exact t2
        · rename_i hs
          refine htrans _ _ _ (htrans _ _ _ (htick o) ?_) (ih1 _ h)
          exact htrans _ _ _ (hsend _ ch hmem (selectCase_sent _ _ _ hs)) (htick _)
        · rename_i hs1
          split at h
          · simp only [Option.some.injEq] at h
            subst h
            exact htrans _ _ _ t2 (htick _)
          · rename_i hs
            refine htrans _ _ _ (htrans _ _ _ t2 ?_) (ih1 _ h)
            exact htrans _ _ _ (hsend _ ch hmem (selectCase_sent _ _ _ hs)) (htick _)
          · rename_i hs
            have hn1 := sendReady_false _ _ _ (selectCase_neither _ _ _ hs1).2
            have hn := sendReady_false _ _ _ (selectCase_neither _ _ _ hs).2
            have hr1 : e.recv ((tick (tick o)).clk - 1) ch = false := by
              simpa using hn1.2
            split at h
            · rename_i hreg
              split at h
              · rename_i o2 hev2
                refine htrans _ _ _ (htrans _ _ _ t2 ?_) (ih1 _ h)
                exact hev _ ch o2 hmem (by simpa using hdrop) hn.1 hn.2 hr1
                  (by simpa using hreg) hev2
              · simp at h
            · rename_i hreg
              refine htrans _ _ _ (htrans _ _ _ t2 ?_) (ih1 _ h)
              exact hout _ ch hmem (by simpa using hdrop) hn.1 hn.2 hr1 (by simpa using hreg)
      · rename_i hdrop
        split at h
        · exact htrans _ _ _ t2 (ih1 _ h)
        · rename_i hs
          refine htrans _ _ _ (htrans _ _ _ (htick o) ?_) (ih1 _ h)
          exact htrans _ _ _ (hsend _ ch hmem (selectCase_sent _ _ _ hs)) (htick _)
        · simp only [Option.some.injEq] at h
          subst h
          exact htrans _ _ _ (htick o) (hpark _ (by simpa using hdrop))

theorem do_sub_off_rule (e : Env) (R : Bus → Bus → Prop) (pub1 : Bus → Msg → Option Bus)
    (c : Chan) (hrefl : ∀ o, R o o) (htrans : ∀ a b c, R a b → R b c → R a c)
    (htick : ∀ o, R o (tick o)) (topics : List String)
    (hun : ∀ o t, t ∈ topics → R o (unsubscribe_topic o t c))
    (hpub : ∀ o t o1, t ∈ topics →
      pub1 o (New_msg ( Unsub_channel_prefix ++ t) (Data.chan c)) = some o1 → R o o1)
    (o o1 : Bus) (h : do_sub_off e pub1 c topics o = some o1) : R o o1 := by
  induction topics generalizing o with
  | nil =>
    simp only [do_sub_off, Option.some.injEq] at h
    subst h
    exact hrefl o
  | cons t rest ih =>
    have ih1 := ih (fun o t ht => hun o t (List.mem_cons_of_mem _ ht))
      (fun o t o1 ht => hpub o t o1 (List.mem_cons_of_mem _ ht))
    rw [do_sub_off] at h
    split at h
    · simp only [Option.some.injEq] at h
      subst h
      exact htick o
    · rename_i hf
      split at h
      · rename_i o2 hp
        have r1 : R o o2 :=
          htrans _ _ _ (htrans _ _ _ (htick o)
            (hun _ t (List.mem_cons_self _ _)))
            (hpub _ t o2 (List.mem_cons_self _ _) hp)
        split at h
        · simp only [Option.some.injEq] at h
          subst h
          exact r1
        · exact htrans _ _ _ r1 (ih1 _ h)
      · simp at h

theorem do_sub_on_rule (e : Env) (R : Bus → Bus → Prop) (pub1 : Bus → Msg → Option Bus)
    (c : Chan) (hrefl : ∀ o, R o o) (htrans : ∀ a b c, R a b → R b c → R a c)
    (htick : ∀ o, R o (tick o)) (topics : List String)
    (hsub : ∀ o t, t ∈ topics → R o (subscribe_topic o t c))
    (hpub : ∀ o t o1, t ∈ topics →
      pub1 o (New_msg ( Sub_channel_prefix ++ t) (Data.chan c)) = some o1 → R o o1)
    (o o1 : Bus) (h : do_sub_on e pub1 c topics o = some o1) : R o o1 := by
  induction topics generalizing o with
  | nil =>
    simp only [do_sub_on, Option.some.injEq] at h
    subst h
    exact hrefl o
  | cons t rest ih =>
    have ih1 := ih (fun o t ht => hsub o t (List.mem_cons_of_mem _ ht))
      (fun o t o1 ht => hpub o t o1 (List.mem_cons_of_mem _ ht))
    rw [do_sub_on] at h
    split at h
    · simp only [Option.some.injEq] at h
      subst h
      exact htick o
    · rename_i hf
      split at h
      · rename_i o2 hp
        have r1 : R o o2 :=
          htrans _ _ _ (htrans _ _ _ (htick o)
            (hsub _ t (List.mem_cons_self _ _)))
            (hpub _ t o2 (List.mem_cons_self _ _) hp)
        split at h
        · simp only [Option.some.injEq] at h
          subst h
          exact r1
        · exact htrans _ _ _ r1 (ih1 _ h)
      · simp at h

theorem do_sub_off_single (e : Env) (pub1 : Bus → Msg → Option Bus) (c : Chan) (t : String)
    (o o1 : Bus) (h : do_sub_off e pub1 c [t] o = some o1) :
    (e.fired o.clk = true ∧ o1 = tick o) ∨
      (e.fired o.clk = false ∧
        pub1 (unsubscribe_topic (tick o) t c)
          (New_msg ( Unsub_channel_prefix ++ t) (Data.chan c)) = some o1) := by
  simp only [do_sub_off] at h
  split at h
  · rename_i hf
    simp only [Option.some.injEq] at h
    exact Or.inl ⟨hf, h.symm⟩
  · rename_i hf
    split at h
    · rename_i o2 hp
      simp only [ite_self, Option.some.injEq] at h
      subst h
      exact Or.inr ⟨by simpa using hf, hp⟩
    · simp at h

/-! ## Insertion and removal -/

theorem mem_mapDelete (v : ChanSet) (c x : Chan) : x ∈ mapDelete v c ↔ x ∈ v ∧ x ≠ c := by
  simp [mapDelete]

theorem mem_mapInsert (v : ChanSet) (c x : Chan) : x ∈ mapInsert v c ↔ x ∈ v ∨ x = c := by
  unfold mapInsert
  split
  · constructor
    · intro h; exact Or.inl h
    · rintro (h | h)
      · exact h
      · subst h; assumption
  · simp

theorem mapDelete_length_le (v : ChanSet) (c : Chan) : (mapDelete v c).length ≤ v.length :=
  List.length_filter_le _ _

theorem mapDelete_cons (a : Chan) (r : ChanSet) (c : Chan) :
    mapDelete (a :: r) c = if a = c then mapDelete r c else a :: mapDelete r c := by
  by_cases h : a = c <;> simp [mapDelete, List.filter_cons, h]

theorem mapDelete_length_lt (v : ChanSet) (c : Chan) (h : c ∈ v) :
    (mapDelete v c).length < v.length := by
  induction v with
  | nil => simp at h
  | cons a r ih =>
    by_cases ha : a = c
    · have := mapDelete_length_le r c
      simp only [mapDelete_cons, ha, if_true, List.length_cons]
      omega
    · have hr : c ∈ r := by
        rcases List.mem_cons.1 h with h1 | h1
        · exact absurd h1.symm ha
        · exact h1
      have := ih hr
      simp only [mapDelete_cons, ha, if_false, List.length_cons]
      omega

theorem mapInsert_length_le (v : ChanSet) (c : Chan) : (mapInsert v c).length ≤ v.length + 1 := by
  unfold mapInsert
  split <;> simp

theorem Get_unsubscribe_other (o : Bus) (t t1 : String) (c : Chan) (h : t ≠ t1) :
    Get (unsubscribe_topic o t c).trie t1 = Get o.trie t1 := by
  unfold unsubscribe_topic
  split
  · split
    · exact Get_Delete_other _ _ _ h
    · exact Get_Set_other _ _ _ _ h
  · rfl

theorem Get_unsubscribe_same (o : Bus) (t : String) (c : Chan) :
    Get (unsubscribe_topic o t c).trie t =
      match Get o.trie t with
      | some v => if (mapDelete v c).length = 0 then none else some (mapDelete v c)
      | none => none := by
  unfold unsubscribe_topic
  split
  · rename_i v hv
    split
    · exact Get_Delete_same _ _
    · exact Get_Set_same _ _ _
  · rename_i hv
    exact hv

theorem Get_subscribe_other (o : Bus) (t t1 : String) (c : Chan) (h : t ≠ t1) :
    Get (subscribe_topic o t c).trie t1 = Get o.trie t1 := by
  unfold subscribe_topic
  split <;> exact Get_Set_other _ _ _ _ h

theorem Get_subscribe_same (o : Bus) (t : String) (c : Chan) :
    Get (subscribe_topic o t c).trie t =
      match Get o.trie t with
      | some v => some (mapInsert v c)
      | none => some [c] := by
  unfold subscribe_topic
  split <;> exact Get_Set_same _ _ _

theorem registered_iff (t : Trie) (topic : String) (c : Chan) :
    registered t topic c = true ↔ ∃ v, Get t topic = some v ∧ c ∈ v := by
  unfold registered
  split
  · rename_i v hv
    simp [hv]
  · rename_i hv
    simp [hv]

theorem registered_unsubscribe_same (o : Bus) (t : String) (c : Chan) :
    registered (unsubscribe_topic o t c).trie t c = false := by
  rw [Bool.eq_false_iff]
  intro h
  rw [registered_iff, Get_unsubscribe_same] at h
  obtain ⟨v, hv, hc⟩ := h
  split at hv
  · split at hv
    · simp at hv
    · simp only [Option.some.injEq] at hv
      subst hv
      simp [mem_mapDelete] at hc
  · simp at hv

theorem registered_unsubscribe_of (o : Bus) (t t1 : String) (c c1 : Chan)
    (h : registered (unsubscribe_topic o t c).trie t1 c1 = true) :
    registered o.trie t1 c1 = true := by
  by_cases ht : t = t1
  · subst ht
    rw [registered_iff, Get_unsubscribe_same] at h
    obtain ⟨v, hv, hc⟩ := h
    split at hv
    · rename_i v0 hv0
      split at hv
      · simp at hv
      · simp only [Option.some.injEq] at hv
        subst hv
        exact (registered_iff _ _ _).2 ⟨v0, hv0, ((mem_mapDelete _ _ _).1 hc).1⟩
    · simp at hv
  · simpa [registered, Get_unsubscribe_other o t t1 c ht] using h

theorem registered_unsubscribe_keep (o : Bus) (t t1 : String) (c c1 : Chan) (hc : c1 ≠ c)
    (h : registered o.trie t1 c1 = true) :
    registered (unsubscribe_topic o t c).trie t1 c1 = true := by
  by_cases ht : t = t1
  · subst ht
    rw [registered_iff] at h
    obtain ⟨v, hv, hm⟩ := h
    have hm1 : c1 ∈ mapDelete v c := (mem_mapDelete _ _ _).2 ⟨hm, hc⟩
    rw [registered_iff, Get_unsubscribe_same, hv]
    have : (mapDelete v c).length ≠ 0 := by
      intro h0
      rw [List.length_eq_zero] at h0
      rw [h0] at hm1
      simp at hm1
    simp only [this, if_false]
    exact ⟨_, rfl, hm1⟩
  · simpa [registered, Get_unsubscribe_other o t t1 c ht] using h

theorem registered_subscribe_same (o : Bus) (t : String) (c : Chan) :
    registered (subscribe_topic o t c).trie t c = true := by
  rw [registered_iff, Get_subscribe_same]
  split
  · exact ⟨_, rfl, (mem_mapInsert _ _ _).2 (Or.inr rfl)⟩
  · exact ⟨_, rfl, by simp⟩

theorem registered_subscribe_keep (o : Bus) (t t1 : String) (c c1 : Chan)
    (h : registered o.trie t1 c1 = true) :
    registered (subscribe_topic o t c).trie t1 c1 = true := by
  by_cases ht : t = t1
  · subst ht
    rw [registered_iff] at h
    obtain ⟨v, hv, hm⟩ := h
    rw [registered_iff, Get_subscribe_same, hv]
    exact ⟨_, rfl, (mem_mapInsert _ _ _).2 (Or.inl hm)⟩
  · simpa [registered, Get_subscribe_other o t t1 c ht] using h

theorem size_unsubscribe_le (o : Bus) (t : String) (c : Chan) :
    size (unsubscribe_topic o t c).trie ≤ size o.trie := by
  unfold unsubscribe_topic
  split
  · rename_i v hv
    split
    · exact size_Delete_le _ _
    · have h1 := size_Set_some o.trie t (mapDelete v c) v hv
      have h2 := mapDelete_length_le v c
      show size (Set o.trie t (mapDelete v c)) ≤ size o.trie
      omega
  · exact Nat.le_refl _

theorem size_unsubscribe_lt (o : Bus) (t : String) (c : Chan)
    (h : registered o.trie t c = true) :
    size (unsubscribe_topic o t c).trie < size o.trie := by
  rw [registered_iff] at h
  obtain ⟨v, hv, hm⟩ := h
  have h2 := mapDelete_length_lt v c hm
  unfold unsubscribe_topic
  rw [hv]
  simp only
  split
  · have h1 := size_Delete_some o.trie t v hv
    show size (Delete o.trie t) < size o.trie
    omega
  · have h1 := size_Set_some o.trie t (mapDelete v c) v hv
    show size (Set o.trie t (mapDelete v c)) < size o.trie
    omega

theorem size_subscribe_le (o : Bus) (t : String) (c : Chan) :
    size (subscribe_topic o t c).trie ≤ size o.trie + 1 := by
  unfold subscribe_topic
  split
  · rename_i v hv
    have h1 := size_Set_some o.trie t (mapInsert v c) v hv
    have h2 := mapInsert_length_le v c
    show size (Set o.trie t (mapInsert v c)) ≤ size o.trie + 1
    omega
  · rename_i hv
    have h1 := size_Set_none o.trie t [c] hv
    show size (Set o.trie t [c]) ≤ size o.trie + 1
    simp at h1
    omega

theorem NoEmpty_Set (t : Trie) (k : String) (v : ChanSet) (h : NoEmpty t) (hv : v ≠ []) :
    NoEmpty (Set t k v) := by
  induction t with
  | nil =>
    intro kv hkv
    simp [Set] at hkv
    subst hkv
    exact hv
  | cons kv0 r ih =>
    obtain ⟨k0, v0⟩ := kv0
    have hr : NoEmpty r := fun kv hkv => h kv (List.mem_cons_of_mem _ hkv)
    intro kv hkv
    by_cases h0 : k0 = k
    · simp only [Set, h0, if_true, List.mem_cons] at hkv
      rcases hkv with h1 | h1
      · subst h1; exact hv
      · exact hr kv h1
    · simp only [Set, h0, if_false, List.mem_cons] at hkv
      rcases hkv with h1 | h1
      · subst h1; exact h _ (List.mem_cons_self _ _)
      · exact ih hr kv h1

theorem NoEmpty_Delete (t : Trie) (k : String) (h : NoEmpty t) : NoEmpty (Delete t k) := by
  intro kv hkv
  exact h kv (List.mem_of_mem_filter hkv)

theorem NoEmpty_unsubscribe (o : Bus) (t : String) (c : Chan) (h : NoEmpty o.trie) :
    NoEmpty (unsubscribe_topic o t c).trie := by
  unfold unsubscribe_topic
  split
  · split
    · exact NoEmpty_Delete _ _ h
    · rename_i hne
      refine NoEmpty_Set _ _ _ h ?_
      intro h0
      rw [h0] at hne
      simp at hne
  · exact h

theorem NoEmpty_subscribe (o : Bus) (t : String) (c : Chan) (h : NoEmpty o.trie) :
    NoEmpty (subscribe_topic o t c).trie := by
  unfold subscribe_topic
  split
  · rename_i v hv
    refine NoEmpty_Set _ _ _ h ?_
    intro h0
    have : c ∈ mapInsert v c := (mem_mapInsert _ _ _).2 (Or.inr rfl)
    rw [h0] at this
    simp at this
  · exact NoEmpty_Set _ _ _ h (by simp)

theorem registered_congr (t t1 : Trie) (topic : String) (c : Chan)
    (h : Get t1 topic = Get t topic) : registered t1 topic c = registered t topic c := by
  simp [registered, h]

theorem pub_eq (d : Nat) (e : Env) (o : Bus) (m : Msg) :
    pub d e o m = pub_body e (evictAt d e m.Topic) o m := by
  cases d <;> rfl

theorem evictAt_succ (d : Nat) (e : Env) (t : String) (o : Bus) (ch : Chan) :
    evictAt (d + 1) e t o ch = do_sub_off e (fun o2 m2 => pub d e o2 m2) ch [t] o := rfl

theorem do_sub_eq (d : Nat) (e : Env) (o : Bus) (s : subscription) :
    do_sub d e o s =
      if s.on_ then do_sub_on e (fun o2 m2 => pub d e o2 m2) s.c s.topics o
      else do_sub_off e (fun o2 m2 => pub d e o2 m2) s.c s.topics o := rfl

theorem Steps.toRule (e : Env) (Q : String → Prop) (R : Bus → Bus → Prop) (S : Steps e Q R) :
    Rule e Q R where
  r_refl := S.r_refl
  r_trans := S.r_trans
  r_tick := S.r_tick
  r_send := S.r_send
  r_park := S.r_park
  r_timeout := fun o ch t hQ hd hfull hr hr1 =>
    S.r_trans _ _ _ (S.r_stall o ch t hQ hd hfull hr hr1) (S.r_tick _)
  r_abort := fun o ch t hQ hd hfull hr hr1 _ =>
    S.r_trans _ _ _ (S.r_stall o ch t hQ hd hfull hr hr1)
      (S.r_trans _ _ _ (S.r_tick _)
        (S.r_trans _ _ _ (S.r_warn _ ch t hQ (by simpa using hd) (by simpa using hfull) ⟨_, hr⟩)
          (S.r_tick _)))
  r_evict := fun o ch t hQ hd hfull hr hr1 hreg =>
    S.r_trans _ _ _ (S.r_stall o ch t hQ hd hfull hr hr1)
      (S.r_trans _ _ _ (S.r_tick _)
        (S.r_trans _ _ _ (S.r_warn _ ch t hQ (by simpa using hd) (by simpa using hfull) ⟨_, hr⟩)
          (S.r_trans _ _ _ (S.r_tick _)
            (S.r_unsub _ ch t hQ (by simpa using hd) (by simpa using hfull) ⟨_, hr⟩
              (by simpa using hreg)))))
  r_next := S.r_next

theorem evictAt_rule_of (e : Env) (Q : String → Prop) (R : Bus → Bus → Prop) (S : Rule e Q R)
    (d : Nat) : ∀ (t : String) (o : Bus) (ch : Chan) (o1 : Bus), Q t →
      o.Drop_slow_consumers = true → e.cap ch ≤ o.len ch → e.recv o.clk ch = false →
      e.recv (o.clk - 1) ch = false → registered o.trie t ch = true →
      evictAt d e t (warn (tick (stall o ch t)) ch t) ch = some o1 → R o o1 := by
  induction d with
  | zero =>
    intro t o ch o1 _ _ _ _ _ _ h
    simp [evictAt] at h
  | succ d ih =>
    intro t o ch o1 hQ hdrop hfull hr hr1 hreg h
    rw [evictAt_succ] at h
    rcases do_sub_off_single e _ ch t _ o1 h with ⟨_, h1⟩ | ⟨_, h1⟩
    · subst h1
      exact S.r_abort o ch t hQ hdrop hfull hr hr1 hreg
    · refine S.r_trans _ _ _ (S.r_evict o ch t hQ hdrop hfull hr hr1 hreg) ?_
      rw [pub_eq, pub_body] at h1
      split at h1
      · exact pub_range_rule e R _ _ S.r_refl S.r_trans S.r_tick S.r_park _
          (fun o ch _ hr => S.r_send o ch _ (S.r_next _ hQ) hr)
          (fun o2 c2 _ h2 h3 h4 h5 _ => S.r_timeout o2 c2 _ (S.r_next _ hQ) h2 h3 h4 h5)
          (fun o2 c2 o3 _ h2 h3 h4 h5 h6 h7 =>
            ih _ o2 c2 o3 (S.r_next _ hQ) h2 h3 h4 h5 h6 h7) _ _ h1
      · simp only [Option.some.injEq] at h1
        subst h1
        exact S.r_refl _

theorem pub_range_steps_of (e : Env) (Q : String → Prop) (R : Bus → Bus → Prop)
    (S : Rule e Q R) (d : Nat) (m : Msg) (hQ : Q m.Topic) (l : List Chan) (o o1 : Bus)
    (h : pub_range e (evictAt d e m.Topic) m l o = some o1) : R o o1 :=
  pub_range_rule e R _ m S.r_refl S.r_trans S.r_tick S.r_park l
    (fun o ch _ hr => S.r_send o ch m hQ hr)
    (fun o2 c2 _ h2 h3 h4 h5 _ => S.r_timeout o2 c2 _ hQ h2 h3 h4 h5)
    (fun o2 c2 o3 _ h2 h3 h4 h5 h6 h7 =>
      evictAt_rule_of e Q R S d _ o2 c2 o3 hQ h2 h3 h4 h5 h6 h7) o o1 h

theorem pub_rule_of (e : Env) (Q : String → Prop) (R : Bus → Bus → Prop) (S : Rule e Q R)
    (d : Nat) (o : Bus) (m : Msg) (o1 : Bus) (hQ : Q m.Topic) (h : pub d e o m = some o1) :
    R o o1 := by
  rw [pub_eq, pub_body] at h
  split at h
  · exact pub_range_steps_of e Q R S d m hQ _ o o1 h
  · simp only [Option.some.injEq] at h
    subst h
    exact S.r_refl o

theorem pub_range_steps (e : Env) (Q : String → Prop) (R : Bus → Bus → Prop) (S : Steps e Q R)
    (d : Nat) (m : Msg) (hQ : Q m.Topic) (l : List Chan) (o o1 : Bus)
    (h : pub_range e (evictAt d e m.Topic) m l o = some o1) : R o o1 :=
  pub_range_steps_of e Q R (Steps.toRule e Q R S) d m hQ l o o1 h

theorem pub_rule (e : Env) (Q : String → Prop) (R : Bus → Bus → Prop) (S : Steps e Q R)
    (d : Nat) (o : Bus) (m : Msg) (o1 : Bus) (hQ : Q m.Topic) (h : pub d e o m = some o1) :
    R o o1 :=
  pub_rule_of e Q R (Steps.toRule e Q R S) d o m o1 hQ h

/-- A relation that holds across `pub` on every topic, and across the insertion
and the removal of `do_sub`, holds across `do_sub`. -/
theorem do_sub_rule (e : Env) (R : Bus → Bus → Prop) (S : Steps e (fun _ => True) R)
    (d : Nat) (o : Bus) (s : subscription) (o1 : Bus)
    (hsub : ∀ o t, t ∈ s.topics → s.on_ = true → R o (subscribe_topic o t s.c))
    (hun : ∀ o t, t ∈ s.topics → s.on_ = false → R o (unsubscribe_topic o t s.c))
    (h : do_sub d e o s = some o1) : R o o1 := by
  rw [do_sub_eq] at h
  split at h
  · rename_i hon
    exact do_sub_on_rule e R _ s.c S.r_refl S.r_trans S.r_tick s.topics
      (fun o t ht => hsub o t ht hon)
      (fun o t o1 _ hp => pub_rule e _ R S d o _ o1 trivial hp) o o1 h
  · rename_i hon
    exact do_sub_off_rule e R _ s.c S.r_refl S.r_trans S.r_tick s.topics
      (fun o t ht => hun o t ht (by simpa using hon))
      (fun o t o1 _ hp => pub_rule e _ R S d o _ o1 trivial hp) o o1 h

/-! ## Instances -/

theorem steps_size (e : Env) :
    Steps e (fun _ => True) (fun o o1 => size o1.trie ≤ size o.trie) where
  r_refl := fun o => Nat.le_refl _
  r_trans := fun a b c h1 h2 => Nat.le_trans h2 h1
  r_tick := fun o => Nat.le_refl _
  r_send := fun o ch m _ _ => Nat.le_refl _
  r_park := fun o _ => Nat.le_refl _
  r_stall := fun o ch t _ _ _ _ _ => Nat.le_refl _
  r_warn := fun o ch t _ _ _ _ => by simp
  r_unsub := fun o ch t _ _ _ _ _ => size_unsubscribe_le o t ch
  r_next := fun _ _ => trivial

theorem steps_noEmpty (e : Env) :
    Steps e (fun _ => True) (fun o o1 => NoEmpty o.trie → NoEmpty o1.trie) where
  r_refl := fun o h => h
  r_trans := fun a b c h1 h2 h => h2 (h1 h)
  r_tick := fun o h => h
  r_send := fun o ch m _ _ h => h
  r_park := fun o _ h => h
  r_stall := fun o ch t _ _ _ _ _ h => h
  r_warn := fun o ch t _ _ _ _ h => by simpa using h
  r_unsub := fun o ch t _ _ _ _ _ h => NoEmpty_unsubscribe o t ch h
  r_next := fun _ _ => trivial

theorem steps_flags (e : Env) :
    Steps e (fun _ => True)
      (fun o o1 => o1.Drop_slow_consumers = o.Drop_slow_consumers ∧ o1.w = o.w) where
  r_refl := fun o => ⟨rfl, rfl⟩
  r_trans := fun a b c h1 h2 => ⟨h2.1.trans h1.1, h2.2.trans h1.2⟩
  r_tick := fun o => ⟨rfl, rfl⟩
  r_send := fun o ch m _ _ => ⟨rfl, rfl⟩
  r_park := fun o _ => ⟨rfl, rfl⟩
  r_stall := fun o ch t _ _ _ _ _ => ⟨rfl, rfl⟩
  r_warn := fun o ch t _ _ _ _ => by simp
  r_unsub := fun o ch t _ _ _ _ _ => by simp
  r_next := fun _ _ => trivial

theorem steps_drop (e : Env) :
    Steps e (fun _ => True)
      (fun o o1 => o.Drop_slow_consumers = true →
        o1.Drop_slow_consumers = true ∧ o1.parked = o.parked) where
  r_refl := fun o h => ⟨h, rfl⟩
  r_trans := fun a b c h1 h2 h =>
    ⟨(h2 (h1 h).1).1, (h2 (h1 h).1).2.trans (h1 h).2⟩
  r_tick := fun o h => ⟨h, rfl⟩
  r_send := fun o ch m _ _ h => ⟨h, rfl⟩
  r_park := fun o h0 h => by rw [h0] at h; cases h
  r_stall := fun o ch t _ _ _ _ _ h => ⟨h, rfl⟩
  r_warn := fun o ch t _ _ _ _ h => by simpa using h
  r_unsub := fun o ch t _ _ _ _ _ h => by simpa using h
  r_next := fun _ _ => trivial

theorem steps_blocking (e : Env) :
    Steps e (fun _ => True)
      (fun o o1 => o.Drop_slow_consumers = false →
        o1.Drop_slow_consumers = false ∧ o1.trie = o.trie ∧ o1.warned = o.warned) where
  r_refl := fun o h => ⟨h, rfl, rfl⟩
  r_trans := fun a b c h1 h2 h =>
    ⟨(h2 (h1 h).1).1, (h2 (h1 h).1).2.1.trans (h1 h).2.1, (h2 (h1 h).1).2.2.trans (h1 h).2.2⟩
  r_tick := fun o h => ⟨h, rfl, rfl⟩
  r_send := fun o ch m _ _ h => ⟨h, rfl, rfl⟩
  r_park := fun o _ h => ⟨h, rfl, rfl⟩
  r_stall := fun o ch t _ h1 _ _ _ h => by rw [h1] at h; cases h
  r_warn := fun o ch t _ h1 _ _ h => by rw [h1] at h; cases h
  r_unsub := fun o ch t _ h1 _ _ _ h => by rw [h1] at h; cases h
  r_next := fun _ _ => trivial

theorem steps_shrink (e : Env) :
    Steps e (fun _ => True)
      (fun o o1 => ∀ t c, registered o1.trie t c = true → registered o.trie t c = true) where
  r_refl := fun o t c h => h
  r_trans := fun a b c h1 h2 t x h => h1 t x (h2 t x h)
  r_tick := fun o t c h => h
  r_send := fun o ch m _ _ t c h => h
  r_park := fun o _ t c h => h
  r_stall := fun o ch t _ _ _ _ _ t1 c h => h
  r_warn := fun o ch t _ _ _ _ t1 c h => by simpa using h
  r_unsub := fun o ch t _ _ _ _ _ t1 c h => registered_unsubscribe_of o t t1 ch c h
  r_next := fun _ _ => trivial

theorem steps_none (e : Env) :
    Steps e (fun _ => True)
      (fun o o1 => ∀ t, Get o.trie t = none → Get o1.trie t = none) where
  r_refl := fun o t h => h
  r_trans := fun a b c h1 h2 t h => h2 t (h1 t h)
  r_tick := fun o t h => h
  r_send := fun o ch m _ _ t h => h
  r_park := fun o _ t h => h
  r_stall := fun o ch t _ _ _ _ _ t1 h => h
  r_warn := fun o ch t _ _ _ _ t1 h => by simpa using h
  r_unsub := fun o ch t _ _ _ _ _ t1 h => by
    by_cases ht : t = t1
    · subst ht
      rw [Get_unsubscribe_same, h]
    · rw [Get_unsubscribe_other o t t1 ch ht]
      exact h
  r_next := fun _ _ => trivial

/-! ## Termination -/

theorem pub_range_total (e : Env) (evict1 : Bus → Chan → Option Bus) (m : Msg) (n : Nat)
    (hev : ∀ o ch, size o.trie ≤ n → registered o.trie m.Topic ch = true →
      ∃ o1, evict1 (warn o ch m.Topic) ch = some o1 ∧ size o1.trie ≤ size o.trie)
    (l : List Chan) : ∀ o : Bus, size o.trie ≤ n → ∃ o1, pub_range e evict1 m l o = some o1 := by
  induction l with
  | nil => intro o _; exact ⟨o, rfl⟩
  | cons ch rest ih =>
    intro o ho
    rw [pub_range]
    split
    · exact ⟨_, rfl⟩
    · split
      · split
        · exact ⟨_, rfl⟩
        · exact ih _ (by simpa using ho)
        · split
          · exact ⟨_, rfl⟩
          · exact ih _ (by simpa using ho)
          · split
            · rename_i hreg
              obtain ⟨o1, h1, h2⟩ := hev (tick (stall (tick (tick o)) ch m.Topic)) ch
                (by simpa using ho) (by simpa using hreg)
              rw [h1]
              exact ih o1 (Nat.le_trans h2 (by simpa using ho))
            · exact ih _ (by simpa using ho)
      · split
        · exact ih _ (by simpa using ho)
        · exact ih _ (by simpa using ho)
        · exact ⟨_, rfl⟩

theorem pub_total (e : Env) (d : Nat) :
    ∀ (o : Bus) (m : Msg), size o.trie ≤ d → ∃ o1, pub d e o m = some o1 := by
  induction d with
  | zero =>
    intro o m ho
    rw [pub_eq, pub_body]
    split
    · refine pub_range_total e _ m 0 ?_ _ o ho
      intro o2 ch h2 hreg
      have := size_unsubscribe_lt o2 m.Topic ch hreg
      omega
    · exact ⟨o, rfl⟩
  | succ d ih =>
    intro o m ho
    rw [pub_eq, pub_body]
    split
    · refine pub_range_total e _ m (d + 1) ?_ _ o ho
      intro o2 ch h2 hreg
      rw [evictAt_succ]
      simp only [do_sub_off]
      split
      · exact ⟨_, rfl, by simp⟩
      · have hlt := size_unsubscribe_lt (tick (warn o2 ch m.Topic)) m.Topic ch
          (by simpa using hreg)
        have hlt1 : size (unsubscribe_topic (tick (warn o2 ch m.Topic)) m.Topic ch).trie
            < size o2.trie := by simpa using hlt
        obtain ⟨o3, h3⟩ := ih (unsubscribe_topic (tick (warn o2 ch m.Topic)) m.Topic ch)
          (New_msg ( Unsub_channel_prefix ++ m.Topic) (Data.chan ch)) (by omega)
        have h4 := pub_rule e _ _ (steps_size e) d _ _ o3 trivial h3
        rw [h3]
        refine ⟨o3, by simp, ?_⟩
        omega
    · exact ⟨o, rfl⟩

theorem do_sub_off_total (e : Env) (d : Nat) (c : Chan) (topics : List String) :
    ∀ o : Bus, size o.trie ≤ d →
      ∃ o1, do_sub_off e (fun o2 m2 => pub d e o2 m2) c topics o = some o1 := by
  induction topics with
  | nil => intro o _; exact ⟨o, rfl⟩
  | cons t rest ih =>
    intro o ho
    rw [do_sub_off]
    split
    · exact ⟨_, rfl⟩
    · have h1 : size (unsubscribe_topic (tick o) t c).trie ≤ d :=
        Nat.le_trans (size_unsubscribe_le _ _ _) (by simpa using ho)
      obtain ⟨o3, h3⟩ := pub_total e d (unsubscribe_topic (tick o) t c)
        (New_msg ( Unsub_channel_prefix ++ t) (Data.chan c)) h1
      have h4 := pub_rule e _ _ (steps_size e) d _ _ o3 trivial h3
      simp only [h3]
      split
      · exact ⟨_, rfl⟩
      · exact ih o3 (Nat.le_trans h4 h1)

theorem do_sub_on_total (e : Env) (d : Nat) (c : Chan) (topics : List String) :
    ∀ o : Bus, size o.trie + topics.length ≤ d →
      ∃ o1, do_sub_on e (fun o2 m2 => pub d e o2 m2) c topics o = some o1 := by
  induction topics with
  | nil => intro o _; exact ⟨o, rfl⟩
  | cons t rest ih =>
    intro o ho
    rw [do_sub_on]
    split
    · exact ⟨_, rfl⟩
    · have h0 := size_subscribe_le (tick o) t c
      simp only [tick_trie, List.length_cons] at h0 ho
      obtain ⟨o3, h3⟩ := pub_total e d (subscribe_topic (tick o) t c)
        (New_msg ( Sub_channel_prefix ++ t) (Data.chan c)) (by omega)
      have h4 := pub_rule e _ _ (steps_size e) d _ _ o3 trivial h3
      simp only [h3]
      split
      · exact ⟨_, rfl⟩
      · exact ih o3 (by omega)

theorem do_sub_total (e : Env) (d : Nat) (o : Bus) (s : subscription)
    (h : size o.trie + s.topics.length ≤ d) : ∃ o1, do_sub d e o s = some o1 := by
  rw [do_sub_eq]
  split
  · exact do_sub_on_total e d s.c s.topics o h
  · exact do_sub_off_total e d s.c s.topics o (by omega)

/-! ## Blocking mode, cancellation, the chain of meta-topics -/

theorem pub_range_blocking_total (e : Env) (evict1 : Bus → Chan → Option Bus) (m : Msg)
    (l : List Chan) : ∀ o : Bus, o.Drop_slow_consumers = false →
      ∃ o1, pub_range e evict1 m l o = some o1 := by
  induction l with
  | nil => intro o _; exact ⟨o, rfl⟩
  | cons ch rest ih =>
    intro o ho
    rw [pub_range]
    simp only [ho]
    split
    · exact ⟨_, rfl⟩
    · simp only [Bool.false_eq_true, if_false]
      split
      · exact ih _ (by simpa using ho)
      · exact ih _ (by simpa using ho)
      · exact ⟨_, rfl⟩

theorem unsubIter_succ (k : Nat) (t : String) :
    unsubIter (k + 1) t = Unsub_channel_prefix ++ unsubIter k t := rfl

theorem unsubIter_length (k : Nat) (t : String) : (unsubIter k t).length = 6 * k + t.length := by
  induction k with
  | zero => simp [unsubIter]
  | succ k ih =>
    rw [unsubIter_succ, String.length_append, ih]
    have : Unsub_channel_prefix.length = 6 := by decide
    omega

theorem unsubIter_succ_ne (k : Nat) (t : String) : unsubIter (k + 1) t ≠ t := by
  intro h
  have := congrArg String.length h
  rw [unsubIter_length] at this
  omega

theorem unsubIter_add (j k : Nat) (t : String) :
    unsubIter j (unsubIter k t) = unsubIter (j + k) t := by
  induction j with
  | zero => simp [unsubIter]
  | succ j ih => rw [Nat.succ_add, unsubIter_succ, unsubIter_succ, ih]

theorem steps_chain (e : Env) (t0 : String) (j : Nat) :
    Steps e (fun t => ∃ k, t = unsubIter (k + j) t0)
      (fun o o1 => ∀ t, (∀ k, t ≠ unsubIter (k + j) t0) → Get o1.trie t = Get o.trie t) where
  r_refl := fun o t _ => rfl
  r_trans := fun a b c h1 h2 t h => (h2 t h).trans (h1 t h)
  r_tick := fun o t _ => rfl
  r_send := fun o ch m _ _ t _ => rfl
  r_park := fun o _ t _ => rfl
  r_stall := fun o ch t _ _ _ _ _ t1 _ => rfl
  r_warn := fun o ch t _ _ _ _ t1 _ => by simp
  r_unsub := fun o ch t hQ _ _ _ _ t1 h => by
    obtain ⟨k, hk⟩ := hQ
    refine Get_unsubscribe_other o t t1 ch ?_
    rw [hk]
    exact fun h1 => h k h1.symm
  r_next := fun t hQ => by
    obtain ⟨k, hk⟩ := hQ
    exact ⟨k + 1, by rw [hk, Nat.add_right_comm, unsubIter_succ]⟩

theorem do_sub_on_cons (e : Env) (pub1 : Bus → Msg → Option Bus) (c : Chan) (t : String)
    (rest : List String) (o o1 : Bus) (hf : e.fired o.clk = false)
    (h : do_sub_on e pub1 c (t :: rest) o = some o1) :
    ∃ o2, pub1 (subscribe_topic (tick o) t c)
        (New_msg ( Sub_channel_prefix ++ t) (Data.chan c)) = some o2 ∧
      ((o2.parked = true ∧ o1 = o2) ∨
        (o2.parked = false ∧ do_sub_on e pub1 c rest o2 = some o1)) := by
  rw [do_sub_on] at h
  simp only [hf, Bool.false_eq_true, if_false] at h
  split at h
  · rename_i o2 h2
    refine ⟨o2, h2, ?_⟩
    split at h
    · rename_i hp
      simp only [Option.some.injEq] at h
      exact Or.inl ⟨hp, h.symm⟩
    · rename_i hp
      exact Or.inr ⟨Bool.eq_false_iff.2 hp, h⟩
  · cases h

theorem do_sub_drop_not_parked (e : Env) (d : Nat) (o : Bus) (s : subscription) (o1 : Bus)
    (h1 : do_sub d e o s = some o1) (h : o.Drop_slow_consumers = true) :
    o1.parked = o.parked := by
  refine (do_sub_rule e _ (steps_drop e) d o s o1 ?_ ?_ h1 h).2
  · intro o2 t _ _ h2
    exact ⟨by simpa using h2, by simp⟩
  · intro o2 t _ _ h2
    exact ⟨by simpa using h2, by simp⟩

/-! ## Delivery -/

theorem selectCase_ready (e : Env) (o : Bus) (ch : Chan) (hf : e.fired o.clk = false)
    (hr : sendReady e o ch = true) : selectCase e o ch = Case.sent := by
  simp [selectCase, hf, hr]

theorem selectCase_stuck (e : Env) (o : Bus) (ch : Chan) (hf : e.fired o.clk = false)
    (hr : sendReady e o ch = false) : selectCase e o ch = Case.neither := by
  simp [selectCase, hf, hr]

theorem pub_range_delivers (e : Env) (evict1 : Bus → Chan → Option Bus) (m : Msg)
    (hf : ∀ k, e.fired k = false) (l : List Chan) :
    ∀ o : Bus, l.Nodup → (∀ c ∈ l, o.len c < e.cap c) →
      ∃ o1, pub_range e evict1 m l o = some o1 ∧
        (∀ c, o1.sent c = o.sent c ++ (if c ∈ l then [m] else [])) ∧
        o1.trie = o.trie ∧ o1.warned = o.warned := by
  induction l with
  | nil =>
    intro o _ _
    exact ⟨o, rfl, by simp, rfl, rfl⟩
  | cons ch rest ih =>
    intro o hnd hfree
    have hch : ch ∉ rest := (List.nodup_cons.1 hnd).1
    have hsel : selectCase e (tick o) ch = Case.sent := by
      refine selectCase_ready e _ ch (hf _) ?_
      simp [sendReady, hfree ch (List.mem_cons_self _ _)]
    have hfree1 : ∀ c ∈ rest, (tick (send e (tick o) ch m)).len c < e.cap c := by
      intro c hc
      have hne : c ≠ ch := fun h => hch (h ▸ hc)
      rw [tick_len, send_len_other _ _ _ _ _ hne]
      exact hfree c (List.mem_cons_of_mem _ hc)
    obtain ⟨o1, h1, h2, h3, h4⟩ := ih (tick (send e (tick o) ch m)) (List.nodup_cons.1 hnd).2 hfree1
    have hstep : pub_range e evict1 m (ch :: rest) o
        = pub_range e evict1 m rest (tick (send e (tick o) ch m)) := by
      rw [pub_range]
      simp only [hf, Bool.false_eq_true, if_false, hsel]
      split <;> rfl
    refine ⟨o1, hstep.trans h1, ?_, by simpa using h3, by simpa using h4⟩
    intro c
    rw [h2 c]
    by_cases hc : c = ch
    · subst hc
      simp [send_sent_same, hch]
    · simp [send_sent_other _ _ _ _ _ hc, hc]

/-! ## One key at a time -/

theorem selectCase_done (e : Env) (o : Bus) (ch : Chan) (h : selectCase e o ch = Case.done) :
    e.fired o.clk = true := by
  unfold selectCase at h
  by_cases hf : e.fired o.clk = true
  · exact hf
  · have hf1 : e.fired o.clk = false := by simpa using hf
    simp only [hf1, Bool.false_eq_true, if_false] at h
    split at h <;> cases h

theorem selectCase_not_done (e : Env) (hf : ∀ k, e.fired k = false) (o : Bus) (ch : Chan) :
    selectCase e o ch ≠ Case.done := by
  intro h
  have := selectCase_done e o ch h
  rw [hf] at this
  cases this

theorem pub_range_cons (e : Env) (evict1 : Bus → Chan → Option Bus) (m : Msg)
    (hf : ∀ k, e.fired k = false) (ch : Chan) (rest : List Chan) (o o1 : Bus)
    (h : pub_range e evict1 m (ch :: rest) o = some o1) :
    ∃ o2, pub_range e evict1 m [ch] o = some o2 ∧
      ((o.Drop_slow_consumers = false ∧ o2.parked = true ∧ o1 = o2) ∨
        pub_range e evict1 m rest o2 = some o1) := by
  rw [pub_range] at h
  simp only [pub_range, hf, Bool.false_eq_true, if_false] at h ⊢
  split at h
  · rename_i hd
    simp only [hd, if_true]
    split at h
    · rename_i hs
      exact absurd hs (selectCase_not_done e hf _ _)
    · exact ⟨_, rfl, Or.inr h⟩
    · split at h
      · rename_i hs
        exact absurd hs (selectCase_not_done e hf _ _)
      · exact ⟨_, rfl, Or.inr h⟩
      · split at h
        · rename_i hreg
          simp only [hreg, if_true]
          split at h
          · rename_i o2 h2
            exact ⟨_, rfl, Or.inr h⟩
          · cases h
        · rename_i hreg
          simp only [hreg, if_false]
          exact ⟨_, rfl, Or.inr h⟩
  · rename_i hd
    simp only [hd, if_false]
    split at h
    · exact ⟨_, rfl, Or.inr h⟩
    · exact ⟨_, rfl, Or.inr h⟩
    · simp only [Option.some.injEq] at h
      exact ⟨_, rfl, Or.inl ⟨trivial, rfl, h.symm⟩⟩

/-! ## A conduit that stays full -/

theorem warnings_warn_other (o : Bus) (c1 c : Chan) (t1 t : String) (h : c1 ≠ c ∨ t1 ≠ t) :
    warnings (warn o c1 t1) t c = warnings o t c := by
  unfold warn
  split
  · simp only [warnings, List.filter_append, List.filter_cons, List.length_append]
    have : decide (c1 = c ∧ t1 = t) = false := by
      rw [decide_eq_false_iff_not]
      rintro ⟨h1, h2⟩
      rcases h with h | h
      · exact h h1
      · exact h h2
    simp only [this]
    simp
  · rfl

theorem warnings_warn_same (o : Bus) (c : Chan) (t : String) (hw : o.w = true) :
    warnings (warn o c t) t c = warnings o t c + 1 := by
  unfold warn
  simp [hw, warnings, List.filter_append, List.filter_cons]

theorem warnings_congr (o o1 : Bus) (t : String) (c : Chan) (h : o1.warned = o.warned) :
    warnings o1 t c = warnings o t c := by
  simp [warnings, h]

theorem sendReady_full (e : Env) (o : Bus) (c : Chan) (hrecv : ∀ k, e.recv k c = false)
    (hfull : e.cap c ≤ o.len c) : sendReady e o c = false := by
  simp [sendReady, hrecv, hfull]

theorem steps_quiet (e : Env) (t0 : String) (c : Chan) (hrecv : ∀ k, e.recv k c = false) :
    Steps e (fun t => ∃ k, t = unsubIter (k + 1) t0)
      (fun o o1 => e.cap c ≤ o.len c →
        o1.len c = o.len c ∧ warnings o1 t0 c = warnings o t0 c) where
  r_refl := fun o _ => ⟨rfl, rfl⟩
  r_trans := fun a b x h1 h2 h => by
    obtain ⟨h3, h4⟩ := h1 h
    obtain ⟨h5, h6⟩ := h2 (by rw [h3]; exact h)
    exact ⟨h5.trans h3, h6.trans h4⟩
  r_tick := fun o _ => ⟨rfl, rfl⟩
  r_send := fun o ch m _ hr h => by
    have hne : c ≠ ch := by
      rintro rfl
      rw [sendReady_full e o c hrecv h] at hr
      cases hr
    exact ⟨send_len_other e o ch c m hne, rfl⟩
  r_park := fun o _ _ => ⟨rfl, rfl⟩
  r_stall := fun o ch t _ _ _ _ _ _ => ⟨rfl, rfl⟩
  r_warn := fun o ch t hQ _ _ _ _ => by
    obtain ⟨k, hk⟩ := hQ
    refine ⟨by simp, warnings_warn_other o ch c t t0 (Or.inr ?_)⟩
    rw [hk]
    exact unsubIter_succ_ne k t0
  r_unsub := fun o ch t _ _ _ _ _ _ => ⟨by simp, warnings_congr _ _ _ _ (by simp)⟩
  r_next := fun t hQ => by
    obtain ⟨k, hk⟩ := hQ
    exact ⟨k + 1, by rw [hk, unsubIter_succ (k + 1)]⟩

/-- An eviction of another conduit from the topic leaves a full conduit alone. -/
theorem evictAt_quiet (e : Env) (d : Nat) (t : String) (c ch : Chan)
    (hrecv : ∀ k, e.recv k c = false) (hne : ch ≠ c) (o o1 : Bus)
    (h : evictAt d e t (warn o ch t) ch = some o1) (hfull : e.cap c ≤ o.len c) :
    o1.len c = o.len c ∧ warnings o1 t c = warnings o t c ∧
      (registered o.trie t c = true → registered o1.trie t c = true) := by
  cases d with
  | zero => simp [evictAt] at h
  | succ d =>
    rw [evictAt_succ] at h
    rcases do_sub_off_single e _ ch t _ o1 h with ⟨_, h1⟩ | ⟨_, h1⟩
    · subst h1
      exact ⟨by simp,
        (warnings_congr (warn o ch t) (tick (warn o ch t)) t c rfl).trans
          (warnings_warn_other o ch c t t (Or.inl hne)), by simp⟩
    · have hq := pub_rule e _ _ (steps_quiet e t c hrecv) d _ _ o1 ⟨0, rfl⟩ h1
        (by simpa using hfull)
      have hg := pub_rule e _ _ (steps_chain e t 1) d _ _ o1 ⟨0, rfl⟩ h1 t
        (fun k h2 => unsubIter_succ_ne k t h2.symm)
      refine ⟨by simpa using hq.1, ?_, ?_⟩
      · rw [hq.2]
        exact (warnings_congr (warn o ch t) _ t c (by simp)).trans
          (warnings_warn_other o ch c t t (Or.inl hne))
      · intro hreg
        rw [registered_congr _ _ t c hg]
        exact registered_unsubscribe_keep _ t t ch c (Ne.symm hne) (by simpa using hreg)

theorem pub_range_quiet (e : Env) (d : Nat) (m : Msg) (c : Chan)
    (hrecv : ∀ k, e.recv k c = false) (l : List Chan) (hc : c ∉ l) (o o1 : Bus)
    (h : pub_range e (evictAt d e m.Topic) m l o = some o1) (hfull : e.cap c ≤ o.len c) :
    o1.len c = o.len c ∧ warnings o1 m.Topic c = warnings o m.Topic c ∧
      (registered o.trie m.Topic c = true → registered o1.trie m.Topic c = true) := by
  refine pub_range_rule e
    (fun o o1 => e.cap c ≤ o.len c →
      o1.len c = o.len c ∧ warnings o1 m.Topic c = warnings o m.Topic c ∧
        (registered o.trie m.Topic c = true → registered o1.trie m.Topic c = true))
    (evictAt d e m.Topic) m ?_ ?_ ?_ ?_ l ?_ ?_ ?_ o o1 h hfull
  · exact fun o _ => ⟨rfl, rfl, fun h => h⟩
  · intro a b x h1 h2 h
    obtain ⟨h3, h4, h5⟩ := h1 h
    obtain ⟨h6, h7, h8⟩ := h2 (by rw [h3]; exact h)
    exact ⟨h6.trans h3, h7.trans h4, fun h9 => h8 (h5 h9)⟩
  · exact fun o _ => ⟨rfl, rfl, fun h => h⟩
  · exact fun o _ _ => ⟨rfl, rfl, fun h => h⟩
  · intro o2 ch hch _ _
    have hne : c ≠ ch := fun h2 => hc (h2 ▸ hch)
    exact ⟨send_len_other e o2 ch c m hne, rfl, fun h => h⟩
  · exact fun o2 ch _ _ _ _ _ _ _ => ⟨rfl, rfl, fun h => h⟩
  · intro o2 ch o3 hch _ _ _ _ _ hev hfull2
    have hne : ch ≠ c := fun h2 => hc (h2 ▸ hch)
    exact evictAt_quiet e d m.Topic c ch hrecv hne (tick (stall o2 ch m.Topic)) o3 hev hfull2

theorem mem_subscribers (t : Trie) (topic : String) (c : Chan) :
    c ∈ subscribers t topic ↔ registered t topic c = true := by
  unfold subscribers registered
  split <;> simp

theorem pub_range_single_stuck (e : Env) (evict1 : Bus → Chan → Option Bus) (m : Msg)
    (hf : ∀ k, e.fired k = false) (c : Chan) (hrecv : ∀ k, e.recv k c = false) (o : Bus)
    (hdrop : o.Drop_slow_consumers = true) (hfull : e.cap c ≤ o.len c)
    (hreg : registered o.trie m.Topic c = true) :
    pub_range e evict1 m [c] o =
      evict1 (warn (tick (stall (tick (tick o)) c m.Topic)) c m.Topic) c := by
  have h1 : selectCase e (tick o) c = Case.neither :=
    selectCase_stuck e _ c (hf _) (sendReady_full e _ c hrecv (by simpa using hfull))
  have h2 : selectCase e (tick (tick o)) c = Case.neither :=
    selectCase_stuck e _ c (hf _) (sendReady_full e _ c hrecv (by simpa using hfull))
  simp only [pub_range, hf, Bool.false_eq_true, if_false, hdrop, if_true, h1, h2, hreg]
  cases evict1 (warn (tick (stall (tick (tick o)) c m.Topic)) c m.Topic) c <;> rfl

/-- The eviction of a full conduit that is registered for the topic. -/
theorem evictAt_full (e : Env) (d : Nat) (t : String) (c : Chan)
    (hf : ∀ k, e.fired k = false) (hrecv : ∀ k, e.recv k c = false) (o o1 : Bus)
    (hw : o.w = true) (hfull : e.cap c ≤ o.len c)
    (h : evictAt d e t (warn o c t) c = some o1) :
    o1.len c = o.len c ∧ warnings o1 t c = warnings o t c + 1 ∧
      registered o1.trie t c = false := by
  cases d with
  | zero => simp [evictAt] at h
  | succ d =>
    rw [evictAt_succ] at h
    rcases do_sub_off_single e _ c t _ o1 h with ⟨h0, _⟩ | ⟨_, h1⟩
    · rw [hf] at h0
      cases h0
    · have hq := pub_rule e _ _ (steps_quiet e t c hrecv) d _ _ o1 ⟨0, rfl⟩ h1
        (by simpa using hfull)
      refine ⟨by simpa using hq.1, ?_, ?_⟩
      · rw [hq.2]
        exact (warnings_congr (warn o c t) _ t c (by simp)).trans (warnings_warn_same o c t hw)
      · rw [Bool.eq_false_iff]
        intro h3
        have h4 := pub_rule e _ _ (steps_shrink e) d _ _ o1 trivial h1 t c h3
        rw [registered_unsubscribe_same] at h4
        cases h4

theorem pub_range_evicts (e : Env) (d : Nat) (m : Msg) (c : Chan)
    (hf : ∀ k, e.fired k = false) (hrecv : ∀ k, e.recv k c = false) (l : List Chan) :
    ∀ (o o1 : Bus), l.Nodup → c ∈ l → o.Drop_slow_consumers = true → o.w = true →
      e.cap c ≤ o.len c → registered o.trie m.Topic c = true →
      pub_range e (evictAt d e m.Topic) m l o = some o1 →
      registered o1.trie m.Topic c = false ∧
        warnings o1 m.Topic c = warnings o m.Topic c + 1 := by
  induction l with
  | nil => intro o o1 _ hc; simp at hc
  | cons ch rest ih =>
    intro o o1 hnd hc hdrop hw hfull hreg h
    obtain ⟨hch, hnd1⟩ := List.nodup_cons.1 hnd
    obtain ⟨o2, h2, h3⟩ := pub_range_cons e _ m hf ch rest o o1 h
    have h3 : pub_range e (evictAt d e m.Topic) m rest o2 = some o1 := by
      rcases h3 with ⟨h4, _⟩ | h4
      · rw [hdrop] at h4
        cases h4
      · exact h4
    by_cases hcc : ch = c
    · subst hcc
      rw [pub_range_single_stuck e _ m hf ch hrecv o hdrop hfull hreg] at h2
      obtain ⟨h5, h6, h7⟩ := evictAt_full e d m.Topic ch hf hrecv _ o2 (by simpa using hw)
        (by simpa using hfull) h2
      obtain ⟨_, h9, _⟩ := pub_range_quiet e d m ch hrecv rest hch o2 o1 h3
        (by rw [h5]; simpa using hfull)
      refine ⟨?_, ?_⟩
      · rw [Bool.eq_false_iff]
        intro h10
        have := pub_range_steps e _ _ (steps_shrink e) d m trivial rest o2 o1 h3 m.Topic ch h10
        rw [h7] at this
        cases this
      · rw [h9, h6]
        rfl
    · have hc1 : c ∈ rest := by
        rcases List.mem_cons.1 hc with h4 | h4
        · exact absurd h4.symm hcc
        · exact h4
      have hc2 : c ∉ [ch] := by
        simp only [List.mem_singleton]
        exact fun h4 => hcc h4.symm
      obtain ⟨h5, h6, h7⟩ := pub_range_quiet e d m c hrecv [ch] hc2 o o2 h2 hfull
      have hfl := pub_range_steps e _ _ (steps_flags e) d m trivial [ch] o o2 h2
      obtain ⟨h8, h9⟩ := ih o2 o1 hnd1 hc1 (hfl.1.trans hdrop) (hfl.2.trans hw)
        (by rw [h5]; exact hfull) (h7 hreg) h3
      exact ⟨h8, by rw [h9, h6]⟩

/-! ## What a conduit receives on a topic -/

theorem received_send_other (e : Env) (o : Bus) (ch c : Chan) (m : Msg) (t : String)
    (h : c ≠ ch ∨ m.Topic ≠ t) : received (send e o ch m) t c = received o t c := by
  by_cases hc : c = ch
  · subst hc
    have ht : m.Topic ≠ t := by
      rcases h with h | h
      · exact absurd rfl h
      · exact h
    simp [received, send_sent_same, List.filter_append, List.filter_cons, ht]
  · simp [received, send_sent_other e o ch c m hc]

theorem received_send_same (e : Env) (o : Bus) (c : Chan) (m : Msg) :
    received (send e o c m) m.Topic c = received o m.Topic c ++ [m] := by
  simp [received, send_sent_same, List.filter_append, List.filter_cons]

theorem received_congr (o o1 : Bus) (t : String) (c : Chan) (h : o1.sent = o.sent) :
    received o1 t c = received o t c := by
  simp [received, h]

/-- Across `pub` on a topic of the chain of `t0` from `j` markers on, a conduit
receives nothing on a topic outside that chain. -/
theorem steps_received (e : Env) (t0 t : String) (c : Chan) (j : Nat)
    (ht : ∀ k, t ≠ unsubIter (k + j) t0) :
    Steps e (fun t1 => ∃ k, t1 = unsubIter (k + j) t0)
      (fun o o1 => received o1 t c = received o t c) where
  r_refl := fun o => rfl
  r_trans := fun a b x h1 h2 => h2.trans h1
  r_tick := fun o => rfl
  r_send := fun o ch m hQ _ => by
    obtain ⟨k, hk⟩ := hQ
    refine received_send_other e o ch c m t (Or.inr ?_)
    rw [hk]
    exact fun h => ht k h.symm
  r_park := fun o _ => rfl
  r_stall := fun o ch t1 _ _ _ _ _ => rfl
  r_warn := fun o ch t1 _ _ _ _ => received_congr _ _ _ _ (by simp)
  r_unsub := fun o ch t1 _ _ _ _ _ => received_congr _ _ _ _ (by simp)
  r_next := fun t1 hQ => by
    obtain ⟨k, hk⟩ := hQ
    exact ⟨k + 1, by rw [hk, Nat.add_right_comm, unsubIter_succ]⟩

/-- An eviction during `pub` on a topic sends nothing on that topic. -/
theorem evictAt_received (e : Env) (d : Nat) (t : String) (c ch : Chan) (o o1 : Bus)
    (h : evictAt d e t (warn o ch t) ch = some o1) : received o1 t c = received o t c := by
  cases d with
  | zero => simp [evictAt] at h
  | succ d =>
    rw [evictAt_succ] at h
    rcases do_sub_off_single e _ ch t _ o1 h with ⟨_, h1⟩ | ⟨_, h1⟩
    · subst h1
      exact received_congr _ _ _ _ (by simp)
    · have hq := pub_rule e _ _
        (steps_received e t t c 1 (fun k h2 => unsubIter_succ_ne k t h2.symm)) d _ _ o1
        ⟨0, rfl⟩ h1
      rw [hq]
      exact received_congr _ _ _ _ (by simp)

theorem pub_range_received_other (e : Env) (d : Nat) (m : Msg) (c : Chan) (l : List Chan)
    (hc : c ∉ l) (o o1 : Bus) (h : pub_range e (evictAt d e m.Topic) m l o = some o1) :
    received o1 m.Topic c = received o m.Topic c := by
  refine pub_range_rule e (fun o o1 => received o1 m.Topic c = received o m.Topic c)
    (evictAt d e m.Topic) m (fun _ => rfl) (fun a b x h1 h2 => h2.trans h1) (fun _ => rfl)
    (fun _ _ => rfl) l ?_ ?_ ?_ o o1 h
  · intro o2 ch hch _
    exact received_send_other e o2 ch c m m.Topic (Or.inl (fun h2 => hc (h2 ▸ hch)))
  · exact fun _ _ _ _ _ _ _ _ => rfl
  · intro o2 ch o3 _ _ _ _ _ _ hev
    exact evictAt_received e d m.Topic c ch (tick (stall o2 ch m.Topic)) o3 hev

theorem subscribers_congr (t t1 : Trie) (topic : String) (h : Get t1 topic = Get t topic) :
    subscribers t1 topic = subscribers t topic := by
  simp [subscribers, h]

theorem ne_unsubIter_of_length (t t0 : String) (hl : t.length = t0.length) (hne : t ≠ t0)
    (k : Nat) : t ≠ unsubIter k t0 := by
  cases k with
  | zero => exact hne
  | succ k =>
    intro h
    have := congrArg String.length h
    rw [unsubIter_length] at this
    omega

/-! ## The keys of a map are distinct, and `range` meets each of them -/

theorem subscribers_unsubscribe_same (o : Bus) (t : String) (c : Chan) :
    subscribers (unsubscribe_topic o t c).trie t = mapDelete (subscribers o.trie t) c := by
  unfold subscribers
  rw [Get_unsubscribe_same]
  cases Get o.trie t with
  | none => rfl
  | some v =>
    by_cases h : (mapDelete v c).length = 0
    · simp only [h, if_true]
      exact (List.length_eq_zero.1 h).symm
    · simp only [h, if_false]

theorem subscribers_subscribe_same (o : Bus) (t : String) (c : Chan) :
    subscribers (subscribe_topic o t c).trie t = mapInsert (subscribers o.trie t) c := by
  unfold subscribers
  rw [Get_subscribe_same]
  cases Get o.trie t with
  | none => rfl
  | some v => rfl

theorem mapInsert_nodup (v : ChanSet) (c : Chan) (h : v.Nodup) : (mapInsert v c).Nodup := by
  unfold mapInsert
  split
  · exact h
  · rename_i hc
    rw [List.nodup_append]
    exact ⟨h, by simp, by simpa using hc⟩

theorem steps_nodup (e : Env) :
    Steps e (fun _ => True)
      (fun o o1 => (∀ t, (subscribers o.trie t).Nodup) → ∀ t, (subscribers o1.trie t).Nodup) where
  r_refl := fun o h => h
  r_trans := fun a b c h1 h2 h => h2 (h1 h)
  r_tick := fun o h => h
  r_send := fun o ch m _ _ h => h
  r_park := fun o _ h => h
  r_stall := fun o ch t _ _ _ _ _ h => h
  r_warn := fun o ch t _ _ _ _ h => by simpa using h
  r_unsub := fun o ch t _ _ _ _ _ h t1 => by
    by_cases ht : t = t1
    · subst ht
      rw [subscribers_unsubscribe_same]
      exact (h t).filter _
    · rw [subscribers_congr _ _ t1 (Get_unsubscribe_other o t t1 ch ht)]
      exact h t1
  r_next := fun _ _ => trivial

/-- In every state the dispatcher can be in between two commands, the keys of
each subscriber set are distinct. -/
theorem reachable_nodup (o : Bus) (h : Reachable o) : ∀ t, (subscribers o.trie t).Nodup := by
  induction h with
  | init warner => intro t; simp [New_bus, subscribers, Get]
  | config o b _ ih => exact ih
  | drain o len _ ih => exact ih
  | wait o _ ih => exact ih
  | command o o1 d e c _ hc ih =>
    cases c with
    | msg m => exact pub_rule e _ _ (steps_nodup e) d o m o1 trivial hc ih
    | sub s =>
      refine do_sub_rule e _ (steps_nodup e) d o s o1 ?_ ?_ hc ih
      · intro o2 t _ _ h2 t1
        by_cases ht : t = t1
        · subst ht
          rw [subscribers_subscribe_same]
          exact mapInsert_nodup _ _ (h2 t)
        · rw [subscribers_congr _ _ t1 (Get_subscribe_other o2 t t1 s.c ht)]
          exact h2 t1
      · intro o2 t _ _ h2 t1
        by_cases ht : t = t1
        · subst ht
          rw [subscribers_unsubscribe_same]
          exact (h2 t).filter _
        · rw [subscribers_congr _ _ t1 (Get_unsubscribe_other o2 t t1 s.c ht)]
          exact h2 t1
  | cleared o _ _ => intro t; simp [subscribers, Get]

/-- While `pub` ranges over the map of a topic, an eviction takes from that map
the key being visited and no other: the keys still to visit are all produced. -/
theorem evictAt_same_topic (e : Env) (d : Nat) (t : String) (ch : Chan) (o o1 : Bus)
    (h : evictAt d e t o ch = some o1) :
    subscribers o1.trie t = subscribers o.trie t ∨
      subscribers o1.trie t = mapDelete (subscribers o.trie t) ch := by
  cases d with
  | zero => simp [evictAt] at h
  | succ d =>
    rw [evictAt_succ] at h
    rcases do_sub_off_single e _ ch t _ o1 h with ⟨_, h1⟩ | ⟨_, h1⟩
    · subst h1
      exact Or.inl rfl
    · have hg := pub_rule e _ _ (steps_chain e t 1) d _ _ o1 ⟨0, rfl⟩ h1 t
        (fun k h2 => unsubIter_succ_ne k t h2.symm)
      right
      rw [subscribers_congr _ _ t hg, subscribers_unsubscribe_same]
      rfl

/-! ## The loop, and the nesting bound -/

theorem loop_reachable (d : Nat) (e : Env) (cmds : List Cmd) :
    ∀ (o o1 : Bus), Reachable o → loop d e cmds o = some o1 → Reachable o1 := by
  induction cmds with
  | nil =>
    intro o o1 hr h
    simp only [loop, Option.some.injEq] at h
    subst h
    exact hr
  | cons i rest ih =>
    intro o o1 hr h
    rw [loop] at h
    split at h
    · simp only [Option.some.injEq] at h
      subst h
      exact Reachable.cleared _ (Reachable.wait o hr)
    · split at h
      · rename_i o2 h2
        have hr2 : Reachable o2 := Reachable.command _ o2 d e i (Reachable.wait o hr) h2
        split at h
        · simp only [Option.some.injEq] at h
          subst h
          exact hr2
        · exact ih o2 o1 hr2 h
      · cases h

theorem pub_range_mono (e : Env) (ev ev1 : Bus → Chan → Option Bus) (m : Msg)
    (hev : ∀ o ch o1, ev o ch = some o1 → ev1 o ch = some o1) (l : List Chan) :
    ∀ (o o1 : Bus), pub_range e ev m l o = some o1 → pub_range e ev1 m l o = some o1 := by
  induction l with
  | nil => intro o o1 h; exact h
  | cons ch rest ih =>
    intro o o1 h
    rw [pub_range] at h ⊢
    split at h
    · rename_i hf
      simp only [hf, if_true]
      exact h
    · rename_i hf
      simp only [hf, if_false]
      split at h
      · rename_i hd
        simp only [hd, if_true]
        split at h
        · rename_i hs
          exact h
        · rename_i hs
          exact ih _ _ h
        · rename_i hs
          split at h
          · rename_i hs2
            exact h
          · rename_i hs2
            exact ih _ _ h
          · rename_i hs2
            split at h
            · rename_i hreg
              simp only [hreg, if_true]
              split at h
              · rename_i o2 h2
                rw [hev _ _ _ h2]
                exact ih _ _ h
              · cases h
            · rename_i hreg
              simp only [hreg, if_false]
              exact ih _ _ h
      · rename_i hd
        simp only [hd, if_false]
        split at h
        · rename_i hs
          exact ih _ _ h
        · rename_i hs
          exact ih _ _ h
        · rename_i hs
          exact h

theorem do_sub_off_mono (e : Env) (p p1 : Bus → Msg → Option Bus) (c : Chan)
    (hp : ∀ o m o1, p o m = some o1 → p1 o m = some o1) (topics : List String) :
    ∀ (o o1 : Bus), do_sub_off e p c topics o = some o1 →
      do_sub_off e p1 c topics o = some o1 := by
  induction topics with
  | nil => intro o o1 h; exact h
  | cons t rest ih =>
    intro o o1 h
    rw [do_sub_off] at h ⊢
    split at h
    · rename_i hf
      simp only [hf, if_true]
      exact h
    · rename_i hf
      simp only [hf, if_false]
      split at h
      · rename_i o2 h2
        rw [hp _ _ _ h2]
        split at h
        · rename_i hpk
          simp only [hpk, if_true]
          exact h
        · rename_i hpk
          simp only [hpk, if_false]
          exact ih _ _ h
      · cases h

/-- A larger nesting bound gives the same result. -/
theorem pub_mono (e : Env) (d : Nat) :
    ∀ (o : Bus) (m : Msg) (o1 : Bus), pub d e o m = some o1 → pub (d + 1) e o m = some o1 := by
  induction d with
  | zero =>
    intro o m o1 h
    rw [pub_eq, pub_body] at h ⊢
    split
    · rename_i v hv
      simp only [hv] at h
      exact pub_range_mono e _ _ m (fun o ch o1 h => by simp [evictAt] at h) _ o o1 h
    · rename_i hv
      simpa [hv] using h
  | succ d ih =>
    intro o m o1 h
    rw [pub_eq, pub_body] at h ⊢
    split
    · rename_i v hv
      simp only [hv] at h
      refine pub_range_mono e _ _ m ?_ _ o o1 h
      intro o2 ch o3 h2
      rw [evictAt_succ] at h2 ⊢
      exact do_sub_off_mono e _ _ ch (fun o4 m4 o5 h4 => ih o4 m4 o5 h4) _ o2 o3 h2
    · rename_i hv
      simpa [hv] using h

/-- The nesting bound is reached: with conduit 1 full and subscribed to `"x"`
and to `"unsub_x"`, `pub` on `"x"` nests two evictions, the number of
memberships of the registry. -/
theorem nesting_bound_reached :
    pub 1 (quietEnv (fun _ => 0)) (busOf true [("x", [1]), ("unsub_x", [1])])
        ⟨"x", Data.ref 7⟩ = none ∧
      (pub 2 (quietEnv (fun _ => 0)) (busOf true [("x", [1]), ("unsub_x", [1])])
        ⟨"x", Data.ref 7⟩).isSome = true :=
  ⟨rfl, rfl⟩

/-! ## The deliveries that time out -/

theorem stallsSince_eq (o o1 : Bus) (l : List Stall) (h : o1.stalled = o.stalled ++ l) :
    stallsSince o o1 = l := by
  simp [stallsSince, h]

theorem send_len_ge (e : Env) (o : Bus) (ch : Chan) (m : Msg) (c : Chan) :
    o.len c ≤ (send e o ch m).len c := by
  by_cases hc : c = ch
  · subst hc
    simp only [send, Function.update_same]
    split <;> omega
  · rw [send_len_other e o ch c m hc]

/-- The log of timed-out deliveries only grows across `pub`, by genuine
entries, and no conduit gets emptier. -/
theorem steps_stalls (e : Env) :
    Steps e (fun _ => True)
      (fun o o1 => ∃ l, o1.stalled = o.stalled ++ l ∧ (∀ c, o.len c ≤ o1.len c) ∧
        ∀ s ∈ l, genuine e s ∧ s.len ≤ o1.len s.ch) where
  r_refl := fun o => ⟨[], by simp, fun _ => Nat.le_refl _, by simp⟩
  r_trans := fun a b c h1 h2 => by
    obtain ⟨l1, h3, h4, h5⟩ := h1
    obtain ⟨l2, h6, h7, h8⟩ := h2
    refine ⟨l1 ++ l2, by rw [h6, h3, List.append_assoc],
      fun x => Nat.le_trans (h4 x) (h7 x), ?_⟩
    intro s hs
    rcases List.mem_append.1 hs with h9 | h9
    · exact ⟨(h5 s h9).1, Nat.le_trans (h5 s h9).2 (h7 _)⟩
    · exact h8 s h9
  r_tick := fun o => ⟨[], by simp, fun _ => Nat.le_refl _, by simp⟩
  r_send := fun o ch m _ _ => ⟨[], by simp, send_len_ge e o ch m, by simp⟩
  r_park := fun o _ => ⟨[], by simp, fun _ => Nat.le_refl _, by simp⟩
  r_stall := fun o ch t _ _ hfull hr hr1 =>
    ⟨[⟨o.clk, o.len ch, ch, t⟩], rfl, fun _ => Nat.le_refl _, by
      intro s hs
      simp only [List.mem_singleton] at hs
      subst hs
      exact ⟨⟨hfull, hr, hr1⟩, Nat.le_refl _⟩⟩
  r_warn := fun o ch t _ _ _ _ => ⟨[], by simp, fun _ => by simp, by simp⟩
  r_unsub := fun o ch t _ _ _ _ _ => ⟨[], by simp, fun _ => by simp, by simp⟩
  r_next := fun _ _ => trivial

/-- In blocking mode no delivery times out. -/
theorem steps_blocking_stalls (e : Env) :
    Steps e (fun _ => True)
      (fun o o1 => o.Drop_slow_consumers = false →
        o1.Drop_slow_consumers = false ∧ o1.stalled = o.stalled) where
  r_refl := fun o h => ⟨h, rfl⟩
  r_trans := fun a b c h1 h2 h => ⟨(h2 (h1 h).1).1, (h2 (h1 h).1).2.trans (h1 h).2⟩
  r_tick := fun o h => ⟨h, rfl⟩
  r_send := fun o ch m _ _ h => ⟨h, rfl⟩
  r_park := fun o _ h => ⟨h, rfl⟩
  r_stall := fun o ch t _ h1 _ _ _ h => by rw [h1] at h; cases h
  r_warn := fun o ch t _ h1 _ _ h => by rw [h1] at h; cases h
  r_unsub := fun o ch t _ h1 _ _ _ h => by rw [h1] at h; cases h
  r_next := fun _ _ => trivial

theorem registered_unsubscribe_other (o : Bus) (t t1 : String) (c c1 : Chan)
    (hne : c1 ≠ c ∨ t1 ≠ t) (h : registered o.trie t1 c1 = true) :
    registered (unsubscribe_topic o t c).trie t1 c1 = true := by
  rcases hne with h1 | h1
  · exact registered_unsubscribe_keep o t t1 c c1 h1 h
  · rw [registered_congr _ _ t1 c1 (Get_unsubscribe_other o t t1 c (Ne.symm h1))]
    exact h

/-- Across `pub`, a conduit loses a membership only where a delivery to it on
that topic timed out. -/
theorem rule_keeps (e : Env) :
    Rule e (fun _ => True)
      (fun o o1 => ∃ l, o1.stalled = o.stalled ++ l ∧
        ∀ t c, registered o.trie t c = true →
          registered o1.trie t c = true ∨ ∃ s ∈ l, s.ch = c ∧ s.topic = t) where
  r_refl := fun o => ⟨[], by simp, fun t c h => Or.inl h⟩
  r_trans := fun a b c h1 h2 => by
    obtain ⟨l1, h3, h4⟩ := h1
    obtain ⟨l2, h5, h6⟩ := h2
    refine ⟨l1 ++ l2, by rw [h5, h3, List.append_assoc], ?_⟩
    intro t x hx
    rcases h4 t x hx with h7 | ⟨s, hs, h7⟩
    · rcases h6 t x h7 with h8 | ⟨s, hs, h8⟩
      · exact Or.inl h8
      · exact Or.inr ⟨s, List.mem_append_right _ hs, h8⟩
    · exact Or.inr ⟨s, List.mem_append_left _ hs, h7⟩
  r_tick := fun o => ⟨[], by simp, fun t c h => Or.inl h⟩
  r_send := fun o ch m _ _ => ⟨[], by simp, fun t c h => Or.inl h⟩
  r_park := fun o _ => ⟨[], by simp, fun t c h => Or.inl h⟩
  r_timeout := fun o ch t _ _ _ _ _ =>
    ⟨[⟨o.clk, o.len ch, ch, t⟩], rfl, fun t1 c h => Or.inl h⟩
  r_abort := fun o ch t _ _ _ _ _ _ =>
    ⟨[⟨o.clk, o.len ch, ch, t⟩], by simp [stall_stalled], fun t1 c h => Or.inl (by simpa using h)⟩
  r_evict := fun o ch t _ _ _ _ _ _ => by
    refine ⟨[⟨o.clk, o.len ch, ch, t⟩], by simp [stall_stalled], ?_⟩
    intro t1 c h
    by_cases hc : c = ch ∧ t1 = t
    · exact Or.inr ⟨_, List.mem_singleton.2 rfl, hc.1.symm, hc.2.symm⟩
    · refine Or.inl (registered_unsubscribe_other _ t t1 ch c ?_ (by simpa using h))
      by_cases h1 : c = ch
      · exact Or.inr (fun h2 => hc ⟨h1, h2⟩)
      · exact Or.inl h1
  r_next := fun _ _ => trivial

theorem pub_stalls (e : Env) (d : Nat) (o : Bus) (m : Msg) (o1 : Bus)
    (h : pub d e o m = some o1) :
    ∃ l, o1.stalled = o.stalled ++ l ∧ (∀ c, o.len c ≤ o1.len c) ∧
      ∀ s ∈ l, genuine e s ∧ s.len ≤ o1.len s.ch :=
  pub_rule e _ _ (steps_stalls e) d o m o1 trivial h

theorem do_sub_stalls (e : Env) (d : Nat) (o : Bus) (s : subscription) (o1 : Bus)
    (h : do_sub d e o s = some o1) :
    ∃ l, o1.stalled = o.stalled ++ l ∧ (∀ c, o.len c ≤ o1.len c) ∧
      ∀ s ∈ l, genuine e s ∧ s.len ≤ o1.len s.ch :=
  do_sub_rule e _ (steps_stalls e) d o s o1
    (fun o2 t _ _ => ⟨[], by simp, fun _ => by simp, by simp⟩)
    (fun o2 t _ _ => ⟨[], by simp, fun _ => by simp, by simp⟩) h

theorem do_sub_on_stalls (e : Env) (d : Nat) (c : Chan) (topics : List String) (o o1 : Bus)
    (h : do_sub_on e (fun o2 m2 => pub d e o2 m2) c topics o = some o1) :
    ∃ l, o1.stalled = o.stalled ++ l :=
  do_sub_on_rule e (fun o o1 => ∃ l, o1.stalled = o.stalled ++ l) _ c
    (fun o => ⟨[], by simp⟩)
    (fun a b x h1 h2 => by
      obtain ⟨l1, h3⟩ := h1
      obtain ⟨l2, h4⟩ := h2
      exact ⟨l1 ++ l2, by rw [h4, h3, List.append_assoc]⟩)
    (fun o => ⟨[], by simp⟩) topics
    (fun o t _ => ⟨[], by simp⟩)
    (fun o t o1 _ hp => by
      obtain ⟨l, h1, _⟩ := pub_stalls e d o _ o1 hp
      exact ⟨l, h1⟩) o o1 h

theorem do_sub_blocking_stalls (e : Env) (d : Nat) (o : Bus) (s : subscription) (o1 : Bus)
    (h : do_sub d e o s = some o1) (hb : o.Drop_slow_consumers = false) :
    o1.stalled = o.stalled :=
  (do_sub_rule e _ (steps_blocking_stalls e) d o s o1
    (fun o2 t _ _ h2 => ⟨by simpa using h2, by simp⟩)
    (fun o2 t _ _ h2 => ⟨by simpa using h2, by simp⟩) h hb).2

/-- Across `pub`, a conduit registered for a topic stays registered for it,
unless a delivery to it on that topic timed out and the topic is in the chain
of the topic published on. -/
theorem pub_keeps_or_stalls (e : Env) (d : Nat) (o : Bus) (m : Msg) (o1 : Bus) (t : String)
    (c : Chan) (h : pub d e o m = some o1) (hreg : registered o.trie t c = true) :
    registered o1.trie t c = true ∨
      ((∃ s ∈ stallsSince o o1, s.ch = c ∧ s.topic = t) ∧ ∃ k, t = unsubIter k m.Topic) := by
  by_cases h1 : registered o1.trie t c = true
  · exact Or.inl h1
  · right
    obtain ⟨l, h2, h3⟩ := pub_rule_of e _ _ (rule_keeps e) d o m o1 trivial h
    rw [stallsSince_eq o o1 l h2]
    refine ⟨(h3 t c hreg).resolve_left h1, ?_⟩
    by_contra h4
    apply h1
    have h5 := pub_rule e _ _ (steps_chain e m.Topic 0) d o m o1 ⟨0, rfl⟩ h t
      (fun k h6 => h4 ⟨k, h6⟩)
    rw [registered_congr _ _ t c h5]
    exact hreg

theorem mem_stallsSince_left (a b x : Bus) (l2 : List Stall)
    (hab : a.stalled.length ≤ b.stalled.length) (hbx : x.stalled = b.stalled ++ l2)
    (s : Stall) (h : s ∈ stallsSince a b) : s ∈ stallsSince a x := by
  unfold stallsSince at h ⊢
  rw [hbx, List.drop_append_of_le_length hab]
  exact List.mem_append_left _ h

theorem mem_stallsSince_right (a b x : Bus) (hab : a.stalled.length ≤ b.stalled.length)
    (s : Stall) (h : s ∈ stallsSince b x) : s ∈ stallsSince a x := by
  unfold stallsSince at h ⊢
  have : b.stalled.length = a.stalled.length + (b.stalled.length - a.stalled.length) := by
    omega
  rw [this, ← List.drop_drop] at h
  exact List.mem_of_mem_drop h

theorem do_sub_on_keeps_or_stalls (e : Env) (d : Nat) (c : Chan) (t : String)
    (hf : ∀ k, e.fired k = false) (topics : List String) :
    ∀ (o o1 : Bus), do_sub_on e (fun o2 m2 => pub d e o2 m2) c topics o = some o1 →
      registered o.trie t c = true →
      registered o1.trie t c = true ∨
        ((∃ s ∈ stallsSince o o1, s.ch = c ∧ s.topic = t) ∧
          ∃ t1 ∈ topics, ∃ k, t = unsubIter k ( Sub_channel_prefix ++ t1)) := by
  induction topics with
  | nil =>
    intro o o1 h hreg
    simp only [do_sub_on, Option.some.injEq] at h
    subst h
    exact Or.inl hreg
  | cons t0 rest ih =>
    intro o o1 h hreg
    by_cases hfin : registered o1.trie t c = true
    · exact Or.inl hfin
    right
    obtain ⟨o2, h2, h3⟩ := do_sub_on_cons e _ c t0 rest o o1 (hf _) h
    obtain ⟨l1, hl1, _⟩ := pub_stalls e d _ _ o2 h2
    have hlen : o.stalled.length ≤ o2.stalled.length := by
      rw [hl1]
      simp
    have hk := pub_keeps_or_stalls e d _ _ o2 t c h2 (registered_subscribe_keep _ t0 t c c hreg)
    rcases h3 with ⟨_, h5⟩ | ⟨_, h5⟩
    · subst h5
      rcases hk with h6 | ⟨⟨s, hs, h6⟩, k, h7⟩
      · exact absurd h6 hfin
      · refine ⟨⟨s, ?_, h6⟩, t0, List.mem_cons_self _ _, k, h7⟩
        simpa [stallsSince] using hs
    · obtain ⟨l2, hl2⟩ := do_sub_on_stalls e d c rest o2 o1 h5
      rcases hk with h6 | ⟨⟨s, hs, h6⟩, k, h7⟩
      · rcases ih o2 o1 h5 h6 with h8 | ⟨⟨s, hs, h8⟩, t1, ht1, k, h9⟩
        · exact absurd h8 hfin
        · exact ⟨⟨s, mem_stallsSince_right o o2 o1 hlen s hs, h8⟩, t1,
            List.mem_cons_of_mem _ ht1, k, h9⟩
      · refine ⟨⟨s, mem_stallsSince_left o o2 o1 l2 hlen hl2 s ?_, h6⟩, t0,
          List.mem_cons_self _ _, k, h7⟩
        simpa [stallsSince] using hs

theorem do_sub_on_append (e : Env) (pub1 : Bus → Msg → Option Bus) (c : Chan)
    (hf : ∀ k, e.fired k = false) (pre rest : List String) :
    ∀ (o o1 : Bus), do_sub_on e pub1 c (pre ++ rest) o = some o1 → o1.parked = false →
      ∃ o2, do_sub_on e pub1 c pre o = some o2 ∧ do_sub_on e pub1 c rest o2 = some o1 := by
  induction pre with
  | nil => intro o o1 h _; exact ⟨o, rfl, h⟩
  | cons t0 pre ih =>
    intro o o1 h hp
    obtain ⟨o2, h2, h3⟩ := do_sub_on_cons e pub1 c t0 (pre ++ rest) o o1 (hf _) h
    rcases h3 with ⟨h4, h5⟩ | ⟨h4, h5⟩
    · rw [h5, h4] at hp
      cases hp
    · obtain ⟨o3, h6, h7⟩ := ih o2 o1 h5 hp
      refine ⟨o3, ?_, h7⟩
      rw [do_sub_on]
      simp only [hf, Bool.false_eq_true, if_false, h2, h4]
      exact h6

theorem ne_unsubIter_sub_self (t : String) (k : Nat) :
    t ≠ unsubIter k ( Sub_channel_prefix ++ t) := by
  intro h
  have h1 := congrArg String.length h
  rw [unsubIter_length, String.length_append] at h1
  have h2 : Sub_channel_prefix.length = 4 := by decide
  omega

/-! ## What a conduit receives, whatever its receiver does -/

theorem pub_range_head (e : Env) (evict1 : Bus → Chan → Option Bus) (m : Msg)
    (hf : ∀ k, e.fired k = false) (ch : Chan) (rest : List Chan) (o o1 : Bus)
    (h : pub_range e evict1 m (ch :: rest) o = some o1) :
    (∃ s, (s = tick o ∨ s = tick (tick o)) ∧ sendReady e s ch = true ∧
        pub_range e evict1 m rest (tick (send e s ch m)) = some o1) ∨
      (pub_range e evict1 m rest (tick (stall (tick (tick o)) ch m.Topic)) = some o1) ∨
      (∃ o2, evict1 (warn (tick (stall (tick (tick o)) ch m.Topic)) ch m.Topic) ch = some o2 ∧
        pub_range e evict1 m rest o2 = some o1) ∨
      (o.Drop_slow_consumers = false ∧ o1 = { tick o with parked := true }) := by
  rw [pub_range] at h
  simp only [hf, Bool.false_eq_true, if_false] at h
  split at h
  · split at h
    · rename_i hs
      exact absurd hs (selectCase_not_done e hf _ _)
    · rename_i hs
      exact Or.inl ⟨_, Or.inl rfl, selectCase_sent _ _ _ hs, h⟩
    · split at h
      · rename_i hs
        exact absurd hs (selectCase_not_done e hf _ _)
      · rename_i hs
        exact Or.inl ⟨_, Or.inr rfl, selectCase_sent _ _ _ hs, h⟩
      · split at h
        · split at h
          · rename_i o2 h2
            exact Or.inr (Or.inr (Or.inl ⟨o2, h2, h⟩))
          · cases h
        · exact Or.inr (Or.inl h)
  · rename_i hd
    split at h
    · rename_i hs
      exact absurd hs (selectCase_not_done e hf _ _)
    · rename_i hs
      exact Or.inl ⟨_, Or.inl rfl, selectCase_sent _ _ _ hs, h⟩
    · simp only [Option.some.injEq] at h
      exact Or.inr (Or.inr (Or.inr ⟨Bool.eq_false_iff.2 hd, h.symm⟩))

theorem pub_range_prefix (e : Env) (d : Nat) (m : Msg) (l : List Chan) (o o1 : Bus)
    (h : pub_range e (evictAt d e m.Topic) m l o = some o1) :
    ∃ l1, o1.stalled = o.stalled ++ l1 := by
  obtain ⟨l1, h1, _⟩ := pub_range_steps e _ _ (steps_stalls e) d m trivial l o o1 h
  exact ⟨l1, h1⟩

theorem evictAt_prefix (e : Env) (d : Nat) (t : String) (ch : Chan) (o o1 : Bus)
    (h : evictAt d e t o ch = some o1) : ∃ l1, o1.stalled = o.stalled ++ l1 := by
  cases d with
  | zero => simp [evictAt] at h
  | succ d =>
    rw [evictAt_succ] at h
    rcases do_sub_off_single e _ ch t _ o1 h with ⟨_, h1⟩ | ⟨_, h1⟩
    · subst h1
      exact ⟨[], by simp⟩
    · obtain ⟨l1, h2, _⟩ := pub_stalls e d _ _ o1 h1
      exact ⟨l1, by simpa using h2⟩

theorem stallsSince_congr (a b x : Bus) (h : b.stalled = a.stalled) :
    stallsSince b x = stallsSince a x := by
  simp [stallsSince, h]

theorem pub_range_notifies (e : Env) (d : Nat) (m : Msg) (c : Chan)
    (hf : ∀ k, e.fired k = false) (l : List Chan) :
    ∀ (o o1 : Bus), l.Nodup → pub_range e (evictAt d e m.Topic) m l o = some o1 →
      o1.parked = false → (∀ s ∈ stallsSince o o1, s.ch ≠ c) →
      received o1 m.Topic c = received o m.Topic c ++ (if c ∈ l then [m] else []) := by
  induction l with
  | nil =>
    intro o o1 _ h _ _
    simp only [pub_range, Option.some.injEq] at h
    subst h
    simp
  | cons ch rest ih =>
    intro o o1 hnd h hp hns
    obtain ⟨hch, hnd1⟩ := List.nodup_cons.1 hnd
    have hmem : (c ∈ ch :: rest) ↔ (c = ch ∨ c ∈ rest) := List.mem_cons
    rcases pub_range_head e _ m hf ch rest o o1 h with
      ⟨s, hs, _, h1⟩ | h1 | ⟨o2, h2, h1⟩ | ⟨_, h1⟩
    · have hst : (tick (send e s ch m)).stalled = o.stalled := by
        rcases hs with hs | hs <;> subst hs <;> rfl
      have hsent : s.sent = o.sent := by
        rcases hs with hs | hs <;> subst hs <;> rfl
      have h3 := ih _ o1 hnd1 h1 hp (by rw [stallsSince_congr o _ o1 hst]; exact hns)
      rw [h3]
      by_cases hc : c = ch
      · subst hc
        have h4 : received (tick (send e s c m)) m.Topic c = received o m.Topic c ++ [m] :=
          (received_send_same e s c m).trans (by rw [received_congr o s _ _ hsent])
        rw [h4]
        simp [hch]
      · have h4 : received (tick (send e s ch m)) m.Topic c = received o m.Topic c :=
          (received_send_other e s ch c m m.Topic (Or.inl hc)).trans
            (received_congr o s _ _ hsent)
        rw [h4]
        simp [hmem, hc]
    · obtain ⟨l1, hl1⟩ := pub_range_prefix e d m rest _ o1 h1
      have hl2 : o1.stalled = o.stalled ++ (⟨o.clk + 1 + 1, o.len ch, ch, m.Topic⟩ :: l1) := by
        rw [hl1]
        simp [stall_stalled]
      have hc : c ≠ ch := by
        intro hc
        refine hns ⟨o.clk + 1 + 1, o.len ch, ch, m.Topic⟩ ?_ hc.symm
        rw [stallsSince_eq o o1 _ hl2]
        exact List.mem_cons_self _ _
      have h3 := ih _ o1 hnd1 h1 hp
        (fun s hs => hns s (mem_stallsSince_right o _ o1 (by simp [stall_stalled]) s hs))
      rw [h3]
      have h4 : received (tick (stall (tick (tick o)) ch m.Topic)) m.Topic c
          = received o m.Topic c := rfl
      rw [h4]
      simp [hmem, hc]
    · obtain ⟨l1, hl1⟩ := pub_range_prefix e d m rest _ o1 h1
      obtain ⟨l0, hl0⟩ := evictAt_prefix e d m.Topic ch _ o2 h2
      have hl2 : o1.stalled
          = o.stalled ++ (⟨o.clk + 1 + 1, o.len ch, ch, m.Topic⟩ :: (l0 ++ l1)) := by
        rw [hl1, hl0]
        simp [stall_stalled]
      have hc : c ≠ ch := by
        intro hc
        refine hns ⟨o.clk + 1 + 1, o.len ch, ch, m.Topic⟩ ?_ hc.symm
        rw [stallsSince_eq o o1 _ hl2]
        exact List.mem_cons_self _ _
      have h3 := ih _ o1 hnd1 h1 hp
        (fun s hs => hns s (mem_stallsSince_right o _ o1
          (by rw [hl0]; simp [stall_stalled]) s hs))
      rw [h3]
      have h4 : received o2 m.Topic c = received o m.Topic c :=
        (evictAt_received e d m.Topic c ch _ o2 h2).trans rfl
      rw [h4]
      simp [hmem, hc]
    · rw [h1] at hp
      cases hp

/-- What `pub` sends a conduit on the topic of the message: nothing when it is
not subscribed, and the message, once, when it is subscribed and no delivery
to it times out. -/
theorem pub_notifies (e : Env) (d : Nat) (o : Bus) (m : Msg) (o1 : Bus) (c : Chan)
    (hf : ∀ k, e.fired k = false) (hperm : ∀ k v, (e.order k v).Perm v)
    (h : pub d e o m = some o1) :
    (c ∉ subscribers o.trie m.Topic → received o1 m.Topic c = received o m.Topic c) ∧
      ((subscribers o.trie m.Topic).Nodup → o1.parked = false →
        (∀ s ∈ stallsSince o o1, s.ch ≠ c) →
        received o1 m.Topic c =
          received o m.Topic c ++ (if c ∈ subscribers o.trie m.Topic then [m] else [])) := by
  rw [pub_eq, pub_body] at h
  cases hv : Get o.trie m.Topic with
  | none =>
    rw [hv] at h
    simp only [Option.some.injEq] at h
    subst h
    exact ⟨fun _ => rfl, fun _ _ _ => by simp [subscribers, hv]⟩
  | some v =>
    have hs : subscribers o.trie m.Topic = v := by simp [subscribers, hv]
    rw [hs]
    rw [hv] at h
    constructor
    · intro hc
      exact pub_range_received_other e d m c _ (fun h1 => hc ((hperm _ _).mem_iff.1 h1)) o o1 h
    · intro hnd hp hns
      have := pub_range_notifies e d m c hf (e.order o.clk v) o o1
        ((hperm _ _).nodup_iff.2 hnd) h hp hns
      rw [this]
      simp only [(hperm o.clk v).mem_iff]

/-- Free capacity for one message is not enough for two notifications: in drop
mode, conduit 1 (buffer 1, no receiver) subscribed to `"sub_a"` and `"sub_b"`
receives the notification on `"sub_a"`, is full when the one on `"sub_b"` is
published, and is evicted from `"sub_b"` without receiving it. -/
theorem one_free_slot_takes_one_notification :
    (do_sub 4 (quietEnv (fun _ => 1)) (busOf true [("sub_a", [1]), ("sub_b", [1])])
        { topics := ["a", "b"], c := 1, on_ := true }).map
      (fun o1 => (received o1 "sub_a" 1, received o1 "sub_b" 1, registered o1.trie "sub_b" 1,
        stallsSince (busOf true [("sub_a", [1]), ("sub_b", [1])]) o1))
      = some ([New_msg "sub_a" (Data.chan 1)], [], false, [⟨6, 1, 1, "sub_b"⟩]) := by
  decide

/-! ## Room for the notifications -/

theorem mem_stallsSince_split (a b x : Bus) (l1 l2 : List Stall)
    (hab : b.stalled = a.stalled ++ l1) (hbx : x.stalled = b.stalled ++ l2) (s : Stall)
    (h : s ∈ stallsSince a x) : s ∈ stallsSince a b ∨ s ∈ stallsSince b x := by
  rw [stallsSince_eq a b l1 hab, stallsSince_eq b x l2 hbx]
  rw [stallsSince_eq a x (l1 ++ l2) (by rw [hbx, hab, List.append_assoc])] at h
  exact List.mem_append.1 h

theorem not_subscribed_unsub (e : Env) (d : Nat) (x : Chan) (m : Msg) (l : List Chan)
    (o o1 : Bus) (h : pub_range e (evictAt d e m.Topic) m l o = some o1)
    (hx : ∀ t1, x ∉ subscribers o.trie ( Unsub_channel_prefix ++ t1)) :
    ∀ t1, x ∉ subscribers o1.trie ( Unsub_channel_prefix ++ t1) := by
  intro t1 h1
  rw [mem_subscribers] at h1
  have h2 := pub_range_steps e _ _ (steps_shrink e) d m trivial l o o1 h _ x h1
  exact hx t1 ((mem_subscribers _ _ _).2 h2)

/-- A conduit that is subscribed to no `"unsub_"` topic and is not among the
keys visited is left alone by the loop of `pub`: nothing is sent to it and no
delivery to it times out. -/
theorem pub_range_untouched (e : Env) (x : Chan) (hperm : ∀ k v, (e.order k v).Perm v)
    (d : Nat) : ∀ (m : Msg) (l : List Chan) (o o1 : Bus), x ∉ l →
      (∀ t1, x ∉ subscribers o.trie ( Unsub_channel_prefix ++ t1)) →
      pub_range e (evictAt d e m.Topic) m l o = some o1 →
      o1.len x = o.len x ∧ ∃ l1, o1.stalled = o.stalled ++ l1 ∧ ∀ s ∈ l1, s.ch ≠ x := by
  induction d with
  | zero =>
    intro m l o o1 hxl hx h
    refine (pub_range_rule e
      (fun o o1 => o1.len x = o.len x ∧ ∃ l1, o1.stalled = o.stalled ++ l1 ∧ ∀ s ∈ l1, s.ch ≠ x)
      (evictAt 0 e m.Topic) m ?_ ?_ ?_ ?_ l ?_ ?_ ?_ o o1 h)
    · exact fun o => ⟨rfl, [], by simp, by simp⟩
    · intro a b c h1 h2
      obtain ⟨h3, l1, h4, h5⟩ := h1
      obtain ⟨h6, l2, h7, h8⟩ := h2
      refine ⟨h6.trans h3, l1 ++ l2, by rw [h7, h4, List.append_assoc], ?_⟩
      intro s hs
      rcases List.mem_append.1 hs with h9 | h9
      · exact h5 s h9
      · exact h8 s h9
    · exact fun o => ⟨rfl, [], by simp, by simp⟩
    · exact fun o _ => ⟨rfl, [], by simp, by simp⟩
    · intro o2 ch hch _
      exact ⟨send_len_other e o2 ch x m (fun h2 => hxl (h2 ▸ hch)), [], by simp, by simp⟩
    · intro o2 ch hch _ _ _ _ _
      refine ⟨rfl, [⟨o2.clk, o2.len ch, ch, m.Topic⟩], rfl, ?_⟩
      intro s hs
      simp only [List.mem_singleton] at hs
      subst hs
      exact fun h2 => hxl (h2 ▸ hch)
    · intro o2 ch o3 _ _ _ _ _ _ hev
      simp [evictAt] at hev
  | succ d ih =>
    intro m l o o1 hxl hx h
    refine (pub_range_rule e
      (fun o o1 => (∀ t1, x ∉ subscribers o.trie ( Unsub_channel_prefix ++ t1)) →
        o1.len x = o.len x ∧ (∃ l1, o1.stalled = o.stalled ++ l1 ∧ ∀ s ∈ l1, s.ch ≠ x) ∧
          ∀ t1, x ∉ subscribers o1.trie ( Unsub_channel_prefix ++ t1))
      (evictAt (d + 1) e m.Topic) m ?_ ?_ ?_ ?_ l ?_ ?_ ?_ o o1 h hx).imp_right And.left
    · exact fun o h => ⟨rfl, ⟨[], by simp, by simp⟩, h⟩
    · intro a b c h1 h2 ha
      obtain ⟨h3, ⟨l1, h4, h5⟩, hb⟩ := h1 ha
      obtain ⟨h6, ⟨l2, h7, h8⟩, hc⟩ := h2 hb
      refine ⟨h6.trans h3, ⟨l1 ++ l2, by rw [h7, h4, List.append_assoc], ?_⟩, hc⟩
      intro s hs
      rcases List.mem_append.1 hs with h9 | h9
      · exact h5 s h9
      · exact h8 s h9
    · exact fun o h => ⟨rfl, ⟨[], by simp, by simp⟩, h⟩
    · exact fun o _ h => ⟨rfl, ⟨[], by simp, by simp⟩, h⟩
    · intro o2 ch hch _ h2
      exact ⟨send_len_other e o2 ch x m (fun h3 => hxl (h3 ▸ hch)), ⟨[], by simp, by simp⟩, h2⟩
    · intro o2 ch hch _ _ _ _ _ h2
      refine ⟨rfl, ⟨[⟨o2.clk, o2.len ch, ch, m.Topic⟩], rfl, ?_⟩, h2⟩
      intro s hs
      simp only [List.mem_singleton] at hs
      subst hs
      exact fun h3 => hxl (h3 ▸ hch)
    · intro o2 ch o3 hch _ _ _ _ _ hev h2
      have hne : ch ≠ x := fun h3 => hxl (h3 ▸ hch)
      have hentry : ∀ s ∈ [(⟨o2.clk, o2.len ch, ch, m.Topic⟩ : Stall)], s.ch ≠ x := by
        intro s hs
        simp only [List.mem_singleton] at hs
        subst hs
        exact hne
      rw [evictAt_succ] at hev
      rcases do_sub_off_single e _ ch m.Topic _ o3 hev with ⟨_, h3⟩ | ⟨_, h3⟩
      · subst h3
        exact ⟨by simp, ⟨_, by simp [stall_stalled], hentry⟩, by simpa using h2⟩
      · have hx3 : ∀ t1, x ∉ subscribers
            (unsubscribe_topic (tick (warn (tick (stall o2 ch m.Topic)) ch m.Topic)) m.Topic
              ch).trie ( Unsub_channel_prefix ++ t1) := by
          intro t1 h4
          rw [mem_subscribers] at h4
          have h5 := registered_unsubscribe_of _ _ _ _ _ h4
          exact h2 t1 ((mem_subscribers _ _ _).2 (by simpa using h5))
        rw [pub_eq, pub_body] at h3
        cases hv : Get (unsubscribe_topic (tick (warn (tick (stall o2 ch m.Topic)) ch m.Topic))
            m.Topic ch).trie (New_msg ( Unsub_channel_prefix ++ m.Topic) (Data.chan ch)).Topic with
        | none =>
          rw [hv] at h3
          simp only [Option.some.injEq] at h3
          subst h3
          exact ⟨by simp, ⟨_, by simp [stall_stalled], hentry⟩, hx3⟩
        | some v =>
          rw [hv] at h3
          have hxv : x ∉ e.order
              (unsubscribe_topic (tick (warn (tick (stall o2 ch m.Topic)) ch m.Topic)) m.Topic
                ch).clk v := by
            intro h4
            have h5 := (hperm _ _).mem_iff.1 h4
            refine hx3 m.Topic ?_
            unfold subscribers
            rw [show ( Unsub_channel_prefix ++ m.Topic)
              = (New_msg ( Unsub_channel_prefix ++ m.Topic) (Data.chan ch)).Topic from rfl, hv]
            exact h5
          obtain ⟨h6, l2, h7, h8⟩ := ih _ _ _ o3 hxv hx3 h3
          refine ⟨by simpa using h6,
            ⟨(⟨o2.clk, o2.len ch, ch, m.Topic⟩ : Stall) :: l2, by rw [h7]; simp [stall_stalled], ?_⟩,
            not_subscribed_unsub e d x _ _ _ o3 h3 hx3⟩
          intro s hs
          rcases List.mem_cons.1 hs with h9 | h9
          · subst h9
            exact hne
          · exact h8 s h9

theorem pub_untouched (e : Env) (x : Chan) (hperm : ∀ k v, (e.order k v).Perm v) (d : Nat)
    (o : Bus) (m : Msg) (o1 : Bus) (hm : ∃ t0, m.Topic = Unsub_channel_prefix ++ t0)
    (hx : ∀ t1, x ∉ subscribers o.trie ( Unsub_channel_prefix ++ t1))
    (h : pub d e o m = some o1) :
    o1.len x = o.len x ∧ (∃ l1, o1.stalled = o.stalled ++ l1 ∧ ∀ s ∈ l1, s.ch ≠ x) ∧
      ∀ t1, x ∉ subscribers o1.trie ( Unsub_channel_prefix ++ t1) := by
  rw [pub_eq, pub_body] at h
  cases hv : Get o.trie m.Topic with
  | none =>
    rw [hv] at h
    simp only [Option.some.injEq] at h
    subst h
    exact ⟨rfl, ⟨[], by simp, by simp⟩, hx⟩
  | some v =>
    rw [hv] at h
    have hxv : x ∉ e.order o.clk v := by
      intro h4
      have h5 := (hperm _ _).mem_iff.1 h4
      obtain ⟨t0, ht0⟩ := hm
      refine hx t0 ?_
      unfold subscribers
      rw [← ht0, hv]
      exact h5
    obtain ⟨h6, h7⟩ := pub_range_untouched e x hperm d m _ o o1 hxv hx h
    exact ⟨h6, h7, not_subscribed_unsub e d x m _ o o1 h hx⟩

theorem evictAt_untouched (e : Env) (x : Chan) (hperm : ∀ k v, (e.order k v).Perm v) (d : Nat)
    (t : String) (ch : Chan) (o o1 : Bus)
    (hx : ∀ t1, x ∉ subscribers o.trie ( Unsub_channel_prefix ++ t1))
    (h : evictAt d e t o ch = some o1) :
    o1.len x = o.len x ∧ (∃ l1, o1.stalled = o.stalled ++ l1 ∧ ∀ s ∈ l1, s.ch ≠ x) ∧
      ∀ t1, x ∉ subscribers o1.trie ( Unsub_channel_prefix ++ t1) := by
  cases d with
  | zero => simp [evictAt] at h
  | succ d =>
    rw [evictAt_succ] at h
    rcases do_sub_off_single e _ ch t _ o1 h with ⟨_, h1⟩ | ⟨_, h1⟩
    · subst h1
      exact ⟨rfl, ⟨[], by simp, by simp⟩, hx⟩
    · have hx3 : ∀ t1, x ∉ subscribers (unsubscribe_topic (tick o) t ch).trie
          ( Unsub_channel_prefix ++ t1) := by
        intro t1 h4
        rw [mem_subscribers] at h4
        have h5 := registered_unsubscribe_of _ _ _ _ _ h4
        exact hx t1 ((mem_subscribers _ _ _).2 (by simpa using h5))
      obtain ⟨h6, ⟨l1, h7, h8⟩, h9⟩ := pub_untouched e x hperm d _ _ o1 ⟨t, rfl⟩ hx3 h1
      exact ⟨by simpa using h6, ⟨l1, by simpa using h7, h8⟩, h9⟩

theorem send_len_le (e : Env) (o : Bus) (ch : Chan) (m : Msg) :
    (send e o ch m).len ch ≤ o.len ch + 1 := by
  simp only [send, Function.update_same]
  split <;> omega

/-- A conduit that is subscribed to no `"unsub_"` topic and is among the keys
visited is sent at most one message by the loop of `pub`, and a delivery to it
that times out found it as full as it was before the loop. -/
theorem pub_range_room (e : Env) (x : Chan) (hf : ∀ k, e.fired k = false)
    (hperm : ∀ k v, (e.order k v).Perm v) (d : Nat) (m : Msg) (l : List Chan) :
    ∀ (o o1 : Bus), l.Nodup → x ∈ l →
      (∀ t1, x ∉ subscribers o.trie ( Unsub_channel_prefix ++ t1)) →
      pub_range e (evictAt d e m.Topic) m l o = some o1 →
      o1.len x ≤ o.len x + 1 ∧
        ∃ l1, o1.stalled = o.stalled ++ l1 ∧ ∀ s ∈ l1, s.ch = x → s.len = o.len x := by
  induction l with
  | nil => intro o o1 _ hxl; cases hxl
  | cons ch rest ih =>
    intro o o1 hnd hxl hx h
    have hnd1 := List.nodup_cons.1 hnd
    by_cases hc : ch = x
    · rw [hc] at h hnd1
      rcases pub_range_head e _ m hf x rest o o1 h with
        ⟨s, hs, _, h2⟩ | h2 | ⟨o2, hev, h2⟩ | ⟨_, h2⟩
      · obtain ⟨h3, l1, h4, h5⟩ := pub_range_untouched e x hperm d m rest _ o1 hnd1.1
          (by rcases hs with hs | hs <;> subst hs <;> simpa using hx) h2
        have h6 := send_len_le e s x m
        have h7 : s.len x = o.len x := by rcases hs with hs | hs <;> subst hs <;> rfl
        have h8 : s.stalled = o.stalled := by rcases hs with hs | hs <;> subst hs <;> rfl
        simp only [tick_len] at h3
        refine ⟨by omega, l1, by rw [h4]; simp [h8], fun s hs hsx => absurd hsx (h5 s hs)⟩
      · obtain ⟨h3, l1, h4, h5⟩ := pub_range_untouched e x hperm d m rest _ o1 hnd1.1
          (by simpa using hx) h2
        simp only [tick_len, stall_len] at h3
        refine ⟨by omega, (⟨(tick (tick o)).clk, o.len x, x, m.Topic⟩ : Stall) :: l1,
          by rw [h4]; simp [stall_stalled], ?_⟩
        intro s hs hsx
        rcases List.mem_cons.1 hs with h9 | h9
        · subst h9
          rfl
        · exact absurd hsx (h5 s h9)
      · obtain ⟨g1, ⟨l0, g2, g3⟩, g4⟩ := evictAt_untouched e x hperm d m.Topic x _ o2
          (by simpa using hx) hev
        obtain ⟨h3, l1, h4, h5⟩ := pub_range_untouched e x hperm d m rest _ o1 hnd1.1 g4 h2
        simp only [warn_len, tick_len, stall_len] at g1
        refine ⟨by omega, (⟨(tick (tick o)).clk, o.len x, x, m.Topic⟩ : Stall) :: (l0 ++ l1),
          by rw [h4, g2]; simp [stall_stalled], ?_⟩
        intro s hs hsx
        rcases List.mem_cons.1 hs with h9 | h9
        · subst h9
          rfl
        · rcases List.mem_append.1 h9 with h9 | h9
          · exact absurd hsx (g3 s h9)
          · exact absurd hsx (h5 s h9)
      · subst h2
        exact ⟨by simp, [], by simp, by simp⟩
    · have hxr : x ∈ rest := by
        rcases List.mem_cons.1 hxl with h1 | h1
        · exact absurd h1.symm hc
        · exact h1
      obtain ⟨o2, h2, h3⟩ := pub_range_cons e _ m hf ch rest o o1 h
      obtain ⟨g1, l0, g2, g3⟩ := pub_range_untouched e x hperm d m [ch] o o2
        (by simpa using fun h => hc h.symm) hx h2
      have g4 := not_subscribed_unsub e d x m [ch] o o2 h2 hx
      rcases h3 with ⟨_, _, h3⟩ | h3
      · subst h3
        exact ⟨by omega, l0, g2, fun s hs hsx => absurd hsx (g3 s hs)⟩
      · obtain ⟨h4, l1, h5, h6⟩ := ih o2 o1 hnd1.2 hxr g4 h3
        refine ⟨by omega, l0 ++ l1, by rw [h5, g2, List.append_assoc], ?_⟩
        intro s hs hsx
        rcases List.mem_append.1 hs with h9 | h9
        · exact absurd hsx (g3 s h9)
        · rw [h6 s h9 hsx, g1]

/-- Across `pub`, a conduit subscribed to no `"unsub_"` topic is sent a message
only if it is subscribed to the topic, and then at most one; a delivery to it
that times out found it subscribed and as full as it was before. -/
theorem pub_room (e : Env) (x : Chan) (hf : ∀ k, e.fired k = false)
    (hperm : ∀ k v, (e.order k v).Perm v) (d : Nat) (o : Bus) (m : Msg) (o1 : Bus)
    (hnd : (subscribers o.trie m.Topic).Nodup)
    (hx : ∀ t1, x ∉ subscribers o.trie ( Unsub_channel_prefix ++ t1))
    (h : pub d e o m = some o1) :
    o1.len x ≤ o.len x + (if x ∈ subscribers o.trie m.Topic then 1 else 0) ∧
      (∃ l1, o1.stalled = o.stalled ++ l1 ∧
        ∀ s ∈ l1, s.ch = x → s.len = o.len x ∧ x ∈ subscribers o.trie m.Topic) ∧
      ∀ t1, x ∉ subscribers o1.trie ( Unsub_channel_prefix ++ t1) := by
  rw [pub_eq, pub_body] at h
  cases hv : Get o.trie m.Topic with
  | none =>
    rw [hv] at h
    simp only [Option.some.injEq] at h
    subst h
    exact ⟨by omega, ⟨[], by simp, by simp⟩, hx⟩
  | some v =>
    rw [hv] at h
    have hsub : subscribers o.trie m.Topic = v := by
      unfold subscribers
      rw [hv]
    rw [hsub] at hnd ⊢
    have hmem : x ∈ e.order o.clk v ↔ x ∈ v := (hperm _ _).mem_iff
    refine ⟨?_, ?_, not_subscribed_unsub e d x m _ o o1 h hx⟩
    · by_cases hxv : x ∈ v
      · simp only [hxv, if_true]
        exact (pub_range_room e x hf hperm d m _ o o1 ((hperm _ _).nodup_iff.2 hnd)
          (hmem.2 hxv) hx h).1
      · simp only [hxv, if_false]
        exact le_of_eq
          (pub_range_untouched e x hperm d m _ o o1 (fun h1 => hxv (hmem.1 h1)) hx h).1
    · by_cases hxv : x ∈ v
      · obtain ⟨_, l1, h1, h2⟩ := pub_range_room e x hf hperm d m _ o o1
          ((hperm _ _).nodup_iff.2 hnd) (hmem.2 hxv) hx h
        exact ⟨l1, h1, fun s hs hsx => ⟨h2 s hs hsx, hxv⟩⟩
      · obtain ⟨_, l1, h1, h2⟩ :=
          pub_range_untouched e x hperm d m _ o o1 (fun h1 => hxv (hmem.1 h1)) hx h
        exact ⟨l1, h1, fun s hs hsx => absurd hsx (h2 s hs)⟩

theorem short_ne_unsub (t t1 : String) (h : t.length < 6) :
    t ≠ Unsub_channel_prefix ++ t1 := by
  intro h1
  have h2 := congrArg String.length h1
  rw [String.length_append] at h2
  have h3 : Unsub_channel_prefix.length = 6 := by decide
  omega

/-- An activation batch for `"a"` and `"b"` sends a conduit `x` that is
subscribed to no `"unsub_"` topic at most one message per meta-topic it is
subscribed to, so no delivery to `x` times out when `x` has room for them. -/
theorem activation_room (e : Env) (o : Bus) (c x : Chan) (d : Nat) (o1 : Bus)
    (hf : ∀ k, e.fired k = false) (hperm : ∀ k v, (e.order k v).Perm v)
    (hnda : (subscribers o.trie "sub_a").Nodup) (hndb : (subscribers o.trie "sub_b").Nodup)
    (h1 : do_sub d e o { topics := ["a", "b"], c := c, on_ := true } = some o1)
    (hx : ∀ t1, x ∉ subscribers o.trie ( Unsub_channel_prefix ++ t1))
    (hcap : o.len x + (if x ∈ subscribers o.trie "sub_a" then 1 else 0) +
      (if x ∈ subscribers o.trie "sub_b" then 1 else 0) ≤ e.cap x) :
    ∀ s ∈ stallsSince o o1, s.ch ≠ x := by
  rw [do_sub_eq] at h1
  simp only [if_true] at h1
  obtain ⟨o2, h2, h3⟩ := do_sub_on_cons e _ c "a" ["b"] o o1 (hf _) h1
  have ha : Sub_channel_prefix ++ "a" = "sub_a" := by decide
  have hb : Sub_channel_prefix ++ "b" = "sub_b" := by decide
  have ta : (New_msg "sub_a" (Data.chan c)).Topic = "sub_a" := rfl
  have tb : (New_msg "sub_b" (Data.chan c)).Topic = "sub_b" := rfl
  rw [ha] at h2
  have ga : Get (subscribe_topic (tick o) "a" c).trie "sub_a" = Get o.trie "sub_a" :=
    Get_subscribe_other (tick o) "a" "sub_a" c (by decide)
  have gb1 : Get (subscribe_topic (tick o) "a" c).trie "sub_b" = Get o.trie "sub_b" :=
    Get_subscribe_other (tick o) "a" "sub_b" c (by decide)
  have gb2 : Get o2.trie "sub_b" = Get (subscribe_topic (tick o) "a" c).trie "sub_b" :=
    pub_rule e _ _ (steps_chain e "sub_a" 0) d _ _ o2 ⟨0, rfl⟩ h2 "sub_b"
      (fun k => ne_unsubIter_of_length "sub_b" "sub_a" (by decide) (by decide) k)
  have gb3 : Get (subscribe_topic (tick o2) "b" c).trie "sub_b" = Get o2.trie "sub_b" :=
    Get_subscribe_other (tick o2) "b" "sub_b" c (by decide)
  have sa := subscribers_congr _ _ "sub_a" ga
  have sb := subscribers_congr _ _ "sub_b" (gb3.trans (gb2.trans gb1))
  have hxa : ∀ t1, x ∉ subscribers (subscribe_topic (tick o) "a" c).trie
      ( Unsub_channel_prefix ++ t1) := by
    intro t1
    rw [subscribers_congr _ _ _
      (Get_subscribe_other (tick o) "a" _ c (short_ne_unsub "a" t1 (by decide)))]
    exact hx t1
  obtain ⟨pa1, ⟨l2, pa2, pa3⟩, pa4⟩ := pub_room e x hf hperm d _
    (New_msg "sub_a" (Data.chan c)) o2 (by rw [ta, sa]; exact hnda) hxa h2
  simp only [ta, sa,
    subscribe_len, tick_len, subscribe_stalled, tick_stalled] at pa1 pa2 pa3
  obtain ⟨l2g, ga2, _, ga3⟩ := pub_stalls e d _ _ o2 h2
  simp only [subscribe_stalled, tick_stalled] at ga2
  have hl2 : l2g = l2 := List.append_cancel_left (ga2.symm.trans pa2)
  subst hl2
  have hno2 : ∀ s ∈ l2g, s.ch ≠ x := by
    intro s hs hsx
    obtain ⟨h5, h6⟩ := pa3 s hs hsx
    have h7 := (ga3 s hs).1.1
    rw [hsx, h5] at h7
    simp only [h6, if_true] at hcap
    omega
  rcases h3 with ⟨_, h5⟩ | ⟨_, h3⟩
  · subst h5
    rw [stallsSince_eq o o1 l2g pa2]
    exact hno2
  · obtain ⟨o3, h4, h5⟩ := do_sub_on_cons e _ c "b" [] o2 o1 (hf _) h3
    rw [hb] at h4
    have h6 : o1 = o3 := by
      rcases h5 with ⟨_, h5⟩ | ⟨_, h5⟩
      · exact h5
      · simp only [do_sub_on, Option.some.injEq] at h5
        exact h5.symm
    subst h6
    have hxb : ∀ t1, x ∉ subscribers (subscribe_topic (tick o2) "b" c).trie
        ( Unsub_channel_prefix ++ t1) := by
      intro t1
      rw [subscribers_congr _ _ _
        (Get_subscribe_other (tick o2) "b" _ c (short_ne_unsub "b" t1 (by decide)))]
      exact pa4 t1
    obtain ⟨_, ⟨l3, pb2, pb3⟩, _⟩ := pub_room e x hf hperm d _
      (New_msg "sub_b" (Data.chan c)) o1 (by rw [tb, sb]; exact hndb) hxb h4
    simp only [tb, sb,
      subscribe_len, tick_len, subscribe_stalled, tick_stalled] at pb2 pb3
    obtain ⟨l3g, gb4, _, gb5⟩ := pub_stalls e d _ _ o1 h4
    simp only [subscribe_stalled, tick_stalled] at gb4
    have hl3 : l3g = l3 := List.append_cancel_left (gb4.symm.trans pb2)
    subst hl3
    rw [stallsSince_eq o o1 (l2g ++ l3g) (by rw [pb2, pa2, List.append_assoc])]
    intro s hs hsx
    rcases List.mem_append.1 hs with h9 | h9
    · exact hno2 s h9 hsx
    · obtain ⟨h5, h6⟩ := pb3 s h9 hsx
      have h7 := (gb5 s h9).1.1
      rw [hsx, h5] at h7
      simp only [h6, if_true] at hcap
      split at pa1 <;> rename_i h8 <;> simp only [h8, if_true, if_false] at hcap <;> omega

/-! ## The claims -/

/-- C1: with cancellation not signalled and every conduit registered for the
topic of `m` having free capacity, `pub` appends `m` itself exactly once to
every conduit of the topic's subscriber set and to no other conduit (the
registry and the Warner being left alone); and when the topic has no entry,
`pub` changes nothing at all. -/
theorem pub_delivers (e : Env) (o : Bus) (m : Msg) (d : Nat) (hf : ∀ k, e.fired k = false)
    (hnd : (subscribers o.trie m.Topic).Nodup)
    (hperm : (e.order o.clk (subscribers o.trie m.Topic)).Perm (subscribers o.trie m.Topic))
    (hfree : ∀ c ∈ subscribers o.trie m.Topic, o.len c < e.cap c) :
    ∃ o1, pub d e o m = some o1 ∧
      (∀ c ∈ subscribers o.trie m.Topic, o1.sent c = o.sent c ++ [m]) ∧
      (∀ c, c ∉ subscribers o.trie m.Topic → o1.sent c = o.sent c) ∧
      o1.trie = o.trie ∧ o1.warned = o.warned ∧
      (Get o.trie m.Topic = none → o1 = o) := by
  cases hv : Get o.trie m.Topic with
  | none => exact ⟨o, by rw [pub_eq, pub_body, hv], by simp [subscribers, hv], by simp, rfl, rfl,
      fun _ => rfl⟩
  | some v =>
    have hs : subscribers o.trie m.Topic = v := by simp [subscribers, hv]
    rw [hs] at hnd hperm hfree ⊢
    obtain ⟨o1, h1, h2, h3, h4⟩ := pub_range_delivers e (evictAt d e m.Topic) m hf
      (e.order o.clk v) o (hperm.nodup_iff.2 hnd) (fun c hc => hfree c (hperm.mem_iff.1 hc))
    refine ⟨o1, ?_, ?_, ?_, h3, h4, fun h => by cases h⟩
    · rw [pub_eq, pub_body, hv]
      exact h1
    · intro c hc
      rw [h2 c, if_pos (hperm.mem_iff.2 hc)]
    · intro c hc
      rw [h2 c, if_neg (fun h => hc (hperm.mem_iff.1 h))]
      simp

theorem pub_delivers_witness :
    (∃ o1, pub 0 { quietEnv (fun _ => 1) with order := fun _ v => v.reverse }
        (busOf true [("x", [1, 2])]) ⟨"x", Data.ref 7⟩ = some o1 ∧
      o1.sent 1 = [⟨"x", Data.ref 7⟩] ∧ o1.sent 2 = [⟨"x", Data.ref 7⟩] ∧ o1.sent 3 = [] ∧
      o1.trie = [("x", [1, 2])] ∧ o1.warned = []) ∧
    (∃ o1, pub 0 (quietEnv (fun _ => 0)) (busOf true [("x", [1, 2])]) ⟨"y", Data.ref 7⟩ = some o1 ∧
      o1 = busOf true [("x", [1, 2])]) :=
  ⟨(pub_delivers { quietEnv (fun _ => 1) with order := fun _ v => v.reverse }
      (busOf true [("x", [1, 2])]) ⟨"x", Data.ref 7⟩ 0 (fun _ => rfl) (by decide) (by decide)
      (by decide)).imp
      (fun _ h => ⟨h.1, h.2.1 1 (by decide), h.2.1 2 (by decide), h.2.2.1 3 (by decide),
        h.2.2.2.1, h.2.2.2.2.1⟩),
   (pub_delivers (quietEnv (fun _ => 0)) (busOf true [("x", [1, 2])]) ⟨"y", Data.ref 7⟩ 0
      (fun _ => rfl) (by decide) (by decide) (by decide)).imp
      (fun _ h => ⟨h.1, h.2.2.2.2.2 rfl⟩)⟩

/-- C2, as it is written, fails: in drop mode, an activation of conduit 1 (no
buffer, no receiver) on `"sub_a"` and then `"a"` publishes the notification of
`"a"` on `"sub_a"`, where conduit 1 itself times out and is evicted. -/
theorem activation_can_be_evicted :
    ¬ (∀ (e : Env) (o : Bus) (c : Chan) (topics : List String) (d : Nat) (o1 : Bus),
        (∀ k, e.fired k = false) →
        do_sub d e o { topics := topics, c := c, on_ := true } = some o1 →
        ∀ t ∈ topics, registered o1.trie t c = true) := by
  intro h
  have h1 := h (quietEnv (fun _ => 0)) (busOf true []) 1 ["sub_a", "a"] 1 _ (fun _ => rfl) rfl
    "sub_a" (by decide)
  revert h1
  decide

/-- C2, amended: with cancellation not signalled, after `do_sub` has processed
an activation of `c` on a list of topics to the end, `c` is a member of the
subscriber set of every topic of the list, except a listed topic that is a
meta-topic (`"sub_" + t1`, `"unsub_sub_" + t1`, ...) of a topic `t1` listed
after it and on which a delivery to `c` timed out during the batch (its buffer
full and no receiver, at the immediate attempt and during the wait).  No
delivery times out in blocking mode; in drop mode the batch is processed to the
end. -/
theorem activation_registers (e : Env) (o : Bus) (c : Chan) (topics : List String) (d : Nat)
    (hf : ∀ k, e.fired k = false) (hd : size o.trie + topics.length ≤ d) :
    ∃ o1, do_sub d e o { topics := topics, c := c, on_ := true } = some o1 ∧
      (o.Drop_slow_consumers = true → o1.parked = o.parked) ∧
      (o1.parked = false → ∀ pre t post, topics = pre ++ t :: post →
        registered o1.trie t c = true ∨
          ((∃ s ∈ stallsSince o o1, s.ch = c ∧ s.topic = t) ∧
            ∃ t1 ∈ post, ∃ k, t = unsubIter k ( Sub_channel_prefix ++ t1))) ∧
      (∀ s ∈ stallsSince o o1, genuine e s ∧ s.len ≤ o1.len s.ch) ∧
      (o.Drop_slow_consumers = false → stallsSince o o1 = []) := by
  obtain ⟨o1, h1⟩ := do_sub_total e d o { topics := topics, c := c, on_ := true } hd
  refine ⟨o1, h1, do_sub_drop_not_parked e d o _ o1 h1, ?_, ?_, ?_⟩
  · intro hp pre t post htop
    rw [do_sub_eq] at h1
    simp only [if_true, htop] at h1
    obtain ⟨oa, ha, hb⟩ := do_sub_on_append e _ c hf pre (t :: post) o o1 h1 hp
    obtain ⟨o2, h2, h3⟩ := do_sub_on_cons e _ c t post oa o1 (hf _) hb
    obtain ⟨la, hla⟩ := do_sub_on_stalls e d c pre o oa ha
    obtain ⟨l2, hl2, _⟩ := pub_stalls e d _ _ o2 h2
    have hlen : o.stalled.length ≤ o2.stalled.length := by
      rw [hl2]
      simp [hla]
    have hreg2 : registered o2.trie t c = true := by
      rcases pub_keeps_or_stalls e d _ _ o2 t c h2 (registered_subscribe_same _ t c) with
        h4 | ⟨_, k, h4⟩
      · exact h4
      · exact absurd h4 (ne_unsubIter_sub_self t k)
    rcases h3 with ⟨_, h5⟩ | ⟨_, h5⟩
    · subst h5
      exact Or.inl hreg2
    · rcases do_sub_on_keeps_or_stalls e d c t hf post o2 o1 h5 hreg2 with
        h6 | ⟨⟨s, hs, h6⟩, h7⟩
      · exact Or.inl h6
      · exact Or.inr ⟨⟨s, mem_stallsSince_right o o2 o1 hlen s hs, h6⟩, h7⟩
  · obtain ⟨l, h2, _, h3⟩ := do_sub_stalls e d o _ o1 h1
    rw [stallsSince_eq o o1 l h2]
    exact h3
  · intro hb
    simp [stallsSince, do_sub_blocking_stalls e d o _ o1 h1 hb]

theorem activation_registers_witness :
    (∃ o1, do_sub 2 (quietEnv (fun _ => 0)) (busOf true [])
        { topics := ["a", "sub_a"], c := 1, on_ := true } = some o1 ∧
      registered o1.trie "a" 1 = true ∧ registered o1.trie "sub_a" 1 = true) ∧
    (∃ o1, do_sub 2 (quietEnv (fun _ => 4)) (busOf true [])
        { topics := ["sub_a", "a"], c := 1, on_ := true } = some o1 ∧
      registered o1.trie "sub_a" 1 = true ∧ registered o1.trie "a" 1 = true) ∧
    (∃ o1, do_sub 2 (quietEnv (fun _ => 0)) (busOf true [])
        { topics := ["sub_a", "a"], c := 1, on_ := true } = some o1 ∧
      registered o1.trie "a" 1 = true) := by
  refine ⟨?_, ?_, ?_⟩
  · obtain ⟨o1, h1, h2, h3, _, _⟩ := activation_registers (quietEnv (fun _ => 0)) (busOf true [])
      1 ["a", "sub_a"] 2 (fun _ => rfl) (by decide)
    have h5 := Option.some.inj (h1.symm.trans (rfl : _ = some
      ((do_sub 2 (quietEnv (fun _ => 0)) (busOf true [])
        { topics := ["a", "sub_a"], c := 1, on_ := true }).getD (New_bus true))))
    have h6 : ∀ t, ¬ ∃ s ∈ stallsSince (busOf true []) o1, s.ch = 1 ∧ s.topic = t := by
      have h7 : stallsSince (busOf true []) o1 = [] := by
        rw [h5]
        decide
      intro t h
      obtain ⟨s, hs, _⟩ := h
      rw [h7] at hs
      cases hs
    exact ⟨o1, h1, (h3 (h2 rfl) [] "a" ["sub_a"] rfl).resolve_right (fun h => h6 _ h.1),
      (h3 (h2 rfl) ["a"] "sub_a" [] rfl).resolve_right (fun h => h6 _ h.1)⟩
  · obtain ⟨o1, h1, h2, h3, _, _⟩ := activation_registers (quietEnv (fun _ => 4)) (busOf true [])
      1 ["sub_a", "a"] 2 (fun _ => rfl) (by decide)
    have h5 := Option.some.inj (h1.symm.trans (rfl : _ = some
      ((do_sub 2 (quietEnv (fun _ => 4)) (busOf true [])
        { topics := ["sub_a", "a"], c := 1, on_ := true }).getD (New_bus true))))
    have h6 : ∀ t, ¬ ∃ s ∈ stallsSince (busOf true []) o1, s.ch = 1 ∧ s.topic = t := by
      have h7 : stallsSince (busOf true []) o1 = [] := by
        rw [h5]
        decide
      intro t h
      obtain ⟨s, hs, _⟩ := h
      rw [h7] at hs
      cases hs
    exact ⟨o1, h1, (h3 (h2 rfl) [] "sub_a" ["a"] rfl).resolve_right (fun h => h6 _ h.1),
      (h3 (h2 rfl) ["sub_a"] "a" [] rfl).resolve_right (fun h => h6 _ h.1)⟩
  · obtain ⟨o1, h1, h2, h3, _, _⟩ := activation_registers (quietEnv (fun _ => 0)) (busOf true [])
      1 ["sub_a", "a"] 2 (fun _ => rfl) (by decide)
    refine ⟨o1, h1, (h3 (h2 rfl) ["sub_a"] "a" [] rfl).resolve_right ?_⟩
    intro h
    obtain ⟨_, t1, ht1, _⟩ := h
    cases ht1

/-- C3: with cancellation not signalled, after `do_sub` has processed a
deactivation of `c` on topic `t`, `c` is not a member of the subscriber set of
`t`, and if `c` was its only member the registry has no entry for `t`. -/
theorem deactivation_removes (e : Env) (o : Bus) (t : String) (c : Chan) (d : Nat)
    (hf : e.fired o.clk = false) (hd : size o.trie ≤ d) :
    ∃ o1, do_sub d e o { topics := [t], c := c, on_ := false } = some o1 ∧
      registered o1.trie t c = false ∧
      (∀ v, Get o.trie t = some v → c ∈ v → (∀ x ∈ v, x = c) → Get o1.trie t = none) := by
  obtain ⟨o1, h1⟩ := do_sub_off_total e d c [t] o hd
  refine ⟨o1, h1, ?_, ?_⟩
  · rcases do_sub_off_single e _ c t o o1 h1 with ⟨h2, _⟩ | ⟨_, h2⟩
    · rw [hf] at h2; cases h2
    · rw [Bool.eq_false_iff]
      intro h3
      have h4 := pub_rule e _ _ (steps_shrink e) d _ _ o1 trivial h2 t c h3
      rw [registered_unsubscribe_same] at h4
      cases h4
  · intro v hv hc hall
    rcases do_sub_off_single e _ c t o o1 h1 with ⟨h2, _⟩ | ⟨_, h2⟩
    · rw [hf] at h2; cases h2
    · refine pub_rule e _ _ (steps_none e) d _ _ o1 trivial h2 t ?_
      rw [Get_unsubscribe_same]
      simp only [tick_trie, hv]
      have : mapDelete v c = [] := by
        rw [mapDelete, List.filter_eq_nil_iff]
        intro x hx
        simp [hall x hx]
      simp [this]

theorem deactivation_removes_witness :
    ∃ o1, do_sub 3 (quietEnv (fun _ => 1)) (busOf true [("a", [1]), ("b", [1, 2])])
        { topics := ["a"], c := 1, on_ := false } = some o1 ∧
      registered o1.trie "a" 1 = false ∧ Get o1.trie "a" = none :=
  (deactivation_removes (quietEnv (fun _ => 1)) (busOf true [("a", [1]), ("b", [1, 2])]) "a" 1 3
    rfl (by decide)).imp
    (fun _ h => ⟨h.1, h.2.1, h.2.2 [1] rfl (by decide) (by decide)⟩)

/-- C4: in every state reachable from the empty registry of `New_bus` by
processing commands (publish, activation, deactivation, with the evictions
`pub` issues itself), no topic entry of the registry has an empty subscriber
set. -/
theorem registry_never_empty (o : Bus) (h : Reachable o) : NoEmpty o.trie := by
  induction h with
  | init warner => intro kv hkv; simp [New_bus] at hkv
  | config o b _ ih => exact ih
  | drain o len _ ih => exact ih
  | wait o _ ih => exact ih
  | command o o1 d e c _ hc ih =>
    cases c with
    | msg m => exact pub_rule e _ _ (steps_noEmpty e) d o m o1 trivial hc ih
    | sub s =>
      exact do_sub_rule e _ (steps_noEmpty e) d o s o1
        (fun o2 t _ _ h2 => NoEmpty_subscribe o2 t s.c h2)
        (fun o2 t _ _ h2 => NoEmpty_unsubscribe o2 t s.c h2) hc ih
  | cleared o _ _ => intro kv hkv; simp at hkv

theorem registry_never_empty_witness :
    NoEmpty ((loop 3 (quietEnv (fun c => if c = 2 then 1 else 0)) [Cmd.sub ⟨["x"], 1, true⟩,
      Cmd.sub ⟨["x", "y"], 2, true⟩, Cmd.sub ⟨["unsub_x"], 1, true⟩, Cmd.msg ⟨"x", Data.ref 7⟩,
      Cmd.sub ⟨["y"], 2, false⟩] (busOf true [])).getD (New_bus true)).trie :=
  registry_never_empty _
    (loop_reachable 3 (quietEnv (fun c => if c = 2 then 1 else 0)) [Cmd.sub ⟨["x"], 1, true⟩,
      Cmd.sub ⟨["x", "y"], 2, true⟩, Cmd.sub ⟨["unsub_x"], 1, true⟩, Cmd.msg ⟨"x", Data.ref 7⟩,
      Cmd.sub ⟨["y"], 2, false⟩] (busOf true []) _
      (Reachable.config (New_bus true) true (Reachable.init true)) rfl)

/-- C5: in drop mode, with cancellation not signalled and a Warner configured,
a conduit `c` registered for the topic of `m` whose buffer is full and from
which nothing is received is, after `pub` of `m`, no longer a member of the
topic's subscriber set, and the Warner has received exactly one more call
naming that topic and `c`. -/
theorem slow_consumer_evicted (e : Env) (o : Bus) (m : Msg) (c : Chan) (d : Nat)
    (hdrop : o.Drop_slow_consumers = true) (hw : o.w = true) (hf : ∀ k, e.fired k = false)
    (hnd : (subscribers o.trie m.Topic).Nodup)
    (hperm : (e.order o.clk (subscribers o.trie m.Topic)).Perm (subscribers o.trie m.Topic))
    (hc : c ∈ subscribers o.trie m.Topic) (hfull : e.cap c ≤ o.len c)
    (hrecv : ∀ k, e.recv k c = false) (hd : size o.trie ≤ d) :
    ∃ o1, pub d e o m = some o1 ∧ c ∉ subscribers o1.trie m.Topic ∧
      warnings o1 m.Topic c = warnings o m.Topic c + 1 := by
  obtain ⟨o1, h1⟩ := pub_total e d o m hd
  refine ⟨o1, h1, ?_⟩
  have hreg := (mem_subscribers _ _ _).1 hc
  rw [pub_eq, pub_body] at h1
  cases hv : Get o.trie m.Topic with
  | none => simp [subscribers, hv] at hc
  | some v =>
    have hs : subscribers o.trie m.Topic = v := by simp [subscribers, hv]
    rw [hs] at hnd hperm hc
    rw [hv] at h1
    obtain ⟨h2, h3⟩ := pub_range_evicts e d m c hf hrecv (e.order o.clk v) o o1
      (hperm.nodup_iff.2 hnd) (hperm.mem_iff.2 hc) hdrop hw hfull hreg h1
    refine ⟨?_, h3⟩
    rw [mem_subscribers, h2]
    simp

theorem slow_consumer_evicted_witness :
    ∃ o1, pub 3 (quietEnv (fun c => if c = 2 then 1 else 0))
        (busOf true [("x", [1, 2]), ("unsub_x", [1])]) ⟨"x", Data.ref 7⟩ = some o1 ∧
      1 ∉ subscribers o1.trie "x" ∧
      warnings o1 "x" 1 = warnings (busOf true [("x", [1, 2]), ("unsub_x", [1])]) "x" 1 + 1 :=
  slow_consumer_evicted (quietEnv (fun c => if c = 2 then 1 else 0))
    (busOf true [("x", [1, 2]), ("unsub_x", [1])]) ⟨"x", Data.ref 7⟩ 1 3 rfl rfl (fun _ => rfl)
    (by decide) (by decide) (by decide) (by decide) (fun _ => rfl) (by decide)

/-- C6: in blocking mode (`Drop_slow_consumers = false`) `pub` returns or parks
in a send, for every nesting bound, and in both cases the registry is exactly as
it was and the Warner has not been called, whatever the fill level of the
conduits. -/
theorem pub_blocking_keeps_registry (e : Env) (o : Bus) (m : Msg) (d : Nat)
    (h : o.Drop_slow_consumers = false) :
    ∃ o1, pub d e o m = some o1 ∧ o1.trie = o.trie ∧ o1.warned = o.warned := by
  have htot : ∃ o1, pub d e o m = some o1 := by
    rw [pub_eq, pub_body]
    split
    · exact pub_range_blocking_total e _ m _ o h
    · exact ⟨o, rfl⟩
  obtain ⟨o1, h1⟩ := htot
  have h2 := pub_rule e _ _ (steps_blocking e) d o m o1 trivial h1 h
  exact ⟨o1, h1, h2.2.1, h2.2.2⟩

theorem pub_blocking_keeps_registry_witness :
    ∃ o1, pub 0 (quietEnv (fun _ => 1)) (busOf false [("x", [1, 2])]) ⟨"x", Data.ref 7⟩ = some o1 ∧
      o1.trie = [("x", [1, 2])] ∧ o1.warned = [] :=
  pub_blocking_keeps_registry (quietEnv (fun _ => 1)) (busOf false [("x", [1, 2])])
    ⟨"x", Data.ref 7⟩ 0 rfl

/-- C7, as it is written, fails: the notifications of an activation go to the
subscribers of the meta-topics, and a conduit with free capacity that
subscribes to `"a"` and `"b"` on an empty registry receives nothing. -/
theorem activation_does_not_notify_self :
    ¬ (∀ (e : Env) (o : Bus) (c : Chan) (d : Nat) (o1 : Bus), (∀ k, e.fired k = false) →
        o.len c < e.cap c →
        do_sub d e o { topics := ["a", "b"], c := c, on_ := true } = some o1 →
        received o1 "sub_a" c = received o "sub_a" c ++ [New_msg "sub_a" (Data.chan c)] ∧
          received o1 "sub_b" c = received o "sub_b" c ++ [New_msg "sub_b" (Data.chan c)]) := by
  intro h
  have h1 := h (quietEnv (fun _ => 2)) (busOf true []) 1 2 _ (fun _ => rfl) (by decide) rfl
  revert h1
  decide

/-- C7, amended: after an activation batch for conduit `c` on `"a"` and `"b"`
(cancellation not signalled), a conduit `x` (in particular `c` itself) that is
not subscribed to `"sub_a"` has received no message on `"sub_a"`; one that is
subscribed has received exactly one more, carrying `c` as its payload, when the
batch was processed to the end and no delivery to `x` timed out; and likewise
on `"sub_b"`.  A delivery times out only on a conduit found full with no
receiver, so none does on an `x` that still has free capacity afterwards, or
whose receiver stays ready, or that is subscribed to no `"unsub_"` topic and
had free capacity for the notifications it is subscribed to (one slot per
meta-topic).  In drop mode the batch is processed to the end. -/
theorem activation_notifies (e : Env) (o : Bus) (c x : Chan) (d : Nat)
    (hf : ∀ k, e.fired k = false) (hperm : ∀ k v, (e.order k v).Perm v)
    (hnda : (subscribers o.trie "sub_a").Nodup) (hndb : (subscribers o.trie "sub_b").Nodup)
    (hd : size o.trie + 2 ≤ d) :
    ∃ o1, do_sub d e o { topics := ["a", "b"], c := c, on_ := true } = some o1 ∧
      (o.Drop_slow_consumers = true → o1.parked = o.parked) ∧
      (x ∉ subscribers o.trie "sub_a" → received o1 "sub_a" x = received o "sub_a" x) ∧
      (x ∉ subscribers o.trie "sub_b" → received o1 "sub_b" x = received o "sub_b" x) ∧
      (o1.parked = false → (∀ s ∈ stallsSince o o1, s.ch ≠ x) →
        received o1 "sub_a" x = received o "sub_a" x ++
            (if x ∈ subscribers o.trie "sub_a" then [New_msg "sub_a" (Data.chan c)] else []) ∧
          received o1 "sub_b" x = received o "sub_b" x ++
            (if x ∈ subscribers o.trie "sub_b" then [New_msg "sub_b" (Data.chan c)] else [])) ∧
      (∀ s ∈ stallsSince o o1, genuine e s ∧ s.len ≤ o1.len s.ch) ∧
      (o1.len x < e.cap x ∨ (∀ k, e.recv k x = true) → ∀ s ∈ stallsSince o o1, s.ch ≠ x) ∧
      ((∀ t, x ∉ subscribers o.trie ( Unsub_channel_prefix ++ t)) →
        o.len x + (if x ∈ subscribers o.trie "sub_a" then 1 else 0) +
          (if x ∈ subscribers o.trie "sub_b" then 1 else 0) ≤ e.cap x →
        ∀ s ∈ stallsSince o o1, s.ch ≠ x) := by
  obtain ⟨o1, h1⟩ := do_sub_total e d o { topics := ["a", "b"], c := c, on_ := true } hd
  have hgen : ∀ s ∈ stallsSince o o1, genuine e s ∧ s.len ≤ o1.len s.ch := by
    obtain ⟨l, h2, _, h3⟩ := do_sub_stalls e d o _ o1 h1
    rw [stallsSince_eq o o1 l h2]
    exact h3
  have hfree : o1.len x < e.cap x ∨ (∀ k, e.recv k x = true) →
      ∀ s ∈ stallsSince o o1, s.ch ≠ x := by
    intro hx s hs hsx
    obtain ⟨⟨h2, h3, _⟩, h4⟩ := hgen s hs
    rw [hsx] at h2 h3 h4
    rcases hx with hx | hx
    · omega
    · rw [hx] at h3
      cases h3
  refine ⟨o1, h1, do_sub_drop_not_parked e d o _ o1 h1, ?_, ?_, ?_, hgen, hfree,
    activation_room e o c x d o1 hf hperm hnda hndb h1⟩
  all_goals
    rw [do_sub_eq] at h1
    simp only [if_true] at h1
    obtain ⟨o2, h2, h3⟩ := do_sub_on_cons e _ c "a" ["b"] o o1 (hf _) h1
    have ha : Sub_channel_prefix ++ "a" = "sub_a" := by decide
    have hb : Sub_channel_prefix ++ "b" = "sub_b" := by decide
    rw [ha] at h2
    have ga : Get (subscribe_topic (tick o) "a" c).trie "sub_a" = Get o.trie "sub_a" :=
      Get_subscribe_other (tick o) "a" "sub_a" c (by decide)
    have gb1 : Get (subscribe_topic (tick o) "a" c).trie "sub_b" = Get o.trie "sub_b" :=
      Get_subscribe_other (tick o) "a" "sub_b" c (by decide)
    have gb2 : Get o2.trie "sub_b" = Get (subscribe_topic (tick o) "a" c).trie "sub_b" :=
      pub_rule e _ _ (steps_chain e "sub_a" 0) d _ _ o2 ⟨0, rfl⟩ h2 "sub_b"
        (fun k => ne_unsubIter_of_length "sub_b" "sub_a" (by decide) (by decide) k)
    have gb3 : Get (subscribe_topic (tick o2) "b" c).trie "sub_b" = Get o2.trie "sub_b" :=
      Get_subscribe_other (tick o2) "b" "sub_b" c (by decide)
    have sa := subscribers_congr _ _ "sub_a" ga
    have sb := subscribers_congr _ _ "sub_b" (gb3.trans (gb2.trans gb1))
    have ra := pub_notifies e d _ (New_msg "sub_a" (Data.chan c)) o2 x hf hperm h2
    simp only [show (New_msg "sub_a" (Data.chan c)).Topic = "sub_a" from rfl, sa] at ra
    have ra0 : received (subscribe_topic (tick o) "a" c) "sub_a" x = received o "sub_a" x :=
      received_congr o _ "sub_a" x (by simp)
    have rb0 : received o2 "sub_b" x = received o "sub_b" x :=
      (pub_rule e _ _ (steps_received e "sub_a" "sub_b" x 0
        (fun k => ne_unsubIter_of_length "sub_b" "sub_a" (by decide) (by decide) k)) d _ _ o2
        ⟨0, rfl⟩ h2).trans (received_congr o _ "sub_b" x (by simp))
    obtain ⟨l2, hl2, _⟩ := pub_stalls e d _ _ o2 h2
    have hlen : o.stalled.length ≤ o2.stalled.length := by
      rw [hl2]
      simp
  · intro hx
    rcases h3 with ⟨_, h5⟩ | ⟨_, h3⟩
    · rw [h5, ra.1 hx, ra0]
    · obtain ⟨o3, h4, h5⟩ := do_sub_on_cons e _ c "b" [] o2 o1 (hf _) h3
      rw [hb] at h4
      have h6 : o1 = o3 := by
        rcases h5 with ⟨_, h5⟩ | ⟨_, h5⟩
        · exact h5
        · simp only [do_sub_on, Option.some.injEq] at h5
          exact h5.symm
      subst h6
      have ra2 : received o1 "sub_a" x = received o2 "sub_a" x :=
        (pub_rule e _ _ (steps_received e "sub_b" "sub_a" x 0
          (fun k => ne_unsubIter_of_length "sub_a" "sub_b" (by decide) (by decide) k)) d _ _ o1
          ⟨0, rfl⟩ h4).trans (received_congr o2 _ "sub_a" x (by simp))
      rw [ra2, ra.1 hx, ra0]
  · intro hx
    rcases h3 with ⟨_, h5⟩ | ⟨_, h3⟩
    · rw [h5, rb0]
    · obtain ⟨o3, h4, h5⟩ := do_sub_on_cons e _ c "b" [] o2 o1 (hf _) h3
      rw [hb] at h4
      have h6 : o1 = o3 := by
        rcases h5 with ⟨_, h5⟩ | ⟨_, h5⟩
        · exact h5
        · simp only [do_sub_on, Option.some.injEq] at h5
          exact h5.symm
      subst h6
      have rb := pub_notifies e d _ (New_msg "sub_b" (Data.chan c)) o1 x hf hperm h4
      simp only [show (New_msg "sub_b" (Data.chan c)).Topic = "sub_b" from rfl, sb] at rb
      rw [rb.1 hx, received_congr o2 _ "sub_b" x (by simp), rb0]
  · intro hp hns
    rcases h3 with ⟨h4, h5⟩ | ⟨hp2, h3⟩
    · rw [h5, h4] at hp
      cases hp
    obtain ⟨o3, h4, h5⟩ := do_sub_on_cons e _ c "b" [] o2 o1 (hf _) h3
    rw [hb] at h4
    have h6 : o1 = o3 := by
      rcases h5 with ⟨_, h5⟩ | ⟨_, h5⟩
      · exact h5
      · simp only [do_sub_on, Option.some.injEq] at h5
        exact h5.symm
    subst h6
    obtain ⟨l3, hl3, _⟩ := pub_stalls e d _ _ o1 h4
    have rb := pub_notifies e d _ (New_msg "sub_b" (Data.chan c)) o1 x hf hperm h4
    simp only [show (New_msg "sub_b" (Data.chan c)).Topic = "sub_b" from rfl, sb] at rb
    have ra2 : received o1 "sub_a" x = received o2 "sub_a" x :=
      (pub_rule e _ _ (steps_received e "sub_b" "sub_a" x 0
        (fun k => ne_unsubIter_of_length "sub_a" "sub_b" (by decide) (by decide) k)) d _ _ o1
        ⟨0, rfl⟩ h4).trans (received_congr o2 _ "sub_a" x (by simp))
    have hns1 : ∀ s ∈ stallsSince (subscribe_topic (tick o) "a" c) o2, s.ch ≠ x := by
      intro s hs
      refine hns s (mem_stallsSince_left o o2 o1 l3 hlen (by simpa using hl3) s ?_)
      simpa [stallsSince] using hs
    have hns2 : ∀ s ∈ stallsSince (subscribe_topic (tick o2) "b" c) o1, s.ch ≠ x := by
      intro s hs
      refine hns s (mem_stallsSince_right o o2 o1 hlen s ?_)
      simpa [stallsSince] using hs
    constructor
    · rw [ra2, ra.2 hnda hp2 hns1, ra0]
    · rw [rb.2 hndb hp hns2, received_congr o2 _ "sub_b" x (by simp), rb0]

theorem activation_notifies_witness :
    (∃ o1, do_sub 4 (quietEnv (fun _ => 4)) (busOf true [("sub_a", [1]), ("sub_b", [1])])
        { topics := ["a", "b"], c := 1, on_ := true } = some o1 ∧
      received o1 "sub_a" 1 = [New_msg "sub_a" (Data.chan 1)] ∧
      received o1 "sub_b" 1 = [New_msg "sub_b" (Data.chan 1)]) ∧
    (∃ o1, do_sub 2 (quietEnv (fun _ => 4)) (busOf true [])
        { topics := ["a", "b"], c := 1, on_ := true } = some o1 ∧
      received o1 "sub_a" 1 = [] ∧ received o1 "sub_b" 1 = []) ∧
    (∃ o1, do_sub 5 (quietEnv (fun _ => 2)) (busOf true [("sub_a", [1, 3]), ("sub_b", [3])])
        { topics := ["a", "b"], c := 1, on_ := true } = some o1 ∧
      received o1 "sub_a" 3 = [New_msg "sub_a" (Data.chan 1)] ∧
      received o1 "sub_b" 3 = [New_msg "sub_b" (Data.chan 1)]) := by
  refine ⟨?_, ?_, ?_⟩
  · obtain ⟨o1, h1, h2, _, _, h3, _, h4, _⟩ := activation_notifies (quietEnv (fun _ => 4))
      (busOf true [("sub_a", [1]), ("sub_b", [1])]) 1 1 4 (fun _ => rfl)
      (fun _ _ => List.Perm.refl _) (by decide) (by decide) (by decide)
    have h5 := Option.some.inj (h1.symm.trans (rfl : _ = some
      ((do_sub 4 (quietEnv (fun _ => 4)) (busOf true [("sub_a", [1]), ("sub_b", [1])])
        { topics := ["a", "b"], c := 1, on_ := true }).getD (New_bus true))))
    have h6 : o1.len 1 < 4 := by
      rw [h5]
      decide
    exact ⟨o1, h1, (h3 (h2 rfl) (h4 (Or.inl h6))).1, (h3 (h2 rfl) (h4 (Or.inl h6))).2⟩
  · obtain ⟨o1, h1, _, h2, h3, _, _, _⟩ := activation_notifies (quietEnv (fun _ => 4))
      (busOf true []) 1 1 2 (fun _ => rfl) (fun _ _ => List.Perm.refl _) (by decide)
      (by decide) (by decide)
    exact ⟨o1, h1, h2 (by decide), h3 (by decide)⟩
  · obtain ⟨o1, h1, h2, _, _, h3, _, _, h4⟩ := activation_notifies (quietEnv (fun _ => 2))
      (busOf true [("sub_a", [1, 3]), ("sub_b", [3])]) 1 3 5 (fun _ => rfl)
      (fun _ _ => List.Perm.refl _) (by decide) (by decide) (by decide)
    have h5 : ∀ t, (3 : Chan) ∉ subscribers (busOf true [("sub_a", [1, 3]), ("sub_b", [3])]).trie
        ( Unsub_channel_prefix ++ t) := by
      intro t
      have g1 := short_ne_unsub "sub_a" t (by decide)
      have g2 := short_ne_unsub "sub_b" t (by decide)
      simp only [subscribers, busOf, Get, if_neg g1, if_neg g2]
      simp
    have h6 := h3 (h2 rfl) (h4 h5 (by decide))
    exact ⟨o1, h1, h6.1, h6.2⟩

/-- C8, as it is written, fails: in drop mode, with conduit 1 subscribed to
`"x"` and to `"unsub_x"` and never receiving, `pub` on `"x"` evicts it from
`"x"` and, through the notification on `"unsub_x"`, from `"unsub_x"` too. -/
theorem eviction_reaches_meta_topic :
    ¬ (∀ (e : Env) (o : Bus) (m : Msg) (d : Nat) (o1 : Bus), o.Drop_slow_consumers = true →
        pub d e o m = some o1 → ∀ t, t ≠ m.Topic → Get o1.trie t = Get o.trie t) := by
  intro h
  have h1 := h (quietEnv (fun _ => 0)) (busOf true [("x", [1]), ("unsub_x", [1])])
    ⟨"x", Data.ref 7⟩ 2 _ rfl rfl "unsub_x" (by decide)
  revert h1
  decide

/-- C8, amended: `pub` of a message on topic `T` leaves the subscriber set of
every topic outside the chain `T`, `"unsub_" + T`, `"unsub_unsub_" + T`, ...
as it was; a conduit loses a membership only where a delivery to it on that
topic timed out during this `pub` (its buffer full and no receiver, at the
immediate attempt and during the wait), so that every conduit that stayed
responsive keeps all its memberships; and no conduit gains a membership. -/
theorem eviction_frame (e : Env) (o : Bus) (m : Msg) (d : Nat) (hd : size o.trie ≤ d) :
    ∃ o1, pub d e o m = some o1 ∧
      (∀ t, (∀ k, t ≠ unsubIter k m.Topic) → Get o1.trie t = Get o.trie t) ∧
      (∀ t c, registered o.trie t c = true →
        registered o1.trie t c = true ∨ ∃ s ∈ stallsSince o o1, s.ch = c ∧ s.topic = t) ∧
      (∀ s ∈ stallsSince o o1, genuine e s ∧ s.len ≤ o1.len s.ch) ∧
      (∀ t c, registered o1.trie t c = true → registered o.trie t c = true) := by
  obtain ⟨o1, h1⟩ := pub_total e d o m hd
  refine ⟨o1, h1, ?_, ?_, ?_, ?_⟩
  · exact pub_rule e _ _ (steps_chain e m.Topic 0) d o m o1 ⟨0, rfl⟩ h1
  · obtain ⟨l, h2, h3⟩ := pub_rule_of e _ _ (rule_keeps e) d o m o1 trivial h1
    rw [stallsSince_eq o o1 l h2]
    exact h3
  · obtain ⟨l, h2, _, h3⟩ := pub_rule e _ _ (steps_stalls e) d o m o1 trivial h1
    rw [stallsSince_eq o o1 l h2]
    exact h3
  · exact pub_rule e _ _ (steps_shrink e) d o m o1 trivial h1

theorem eviction_frame_witness :
    (∃ o1, pub 4 (quietEnv (fun c => if c = 2 then 1 else 0))
        (busOf true [("x", [1, 2]), ("unsub_x", [1]), ("y", [1])]) ⟨"x", Data.ref 7⟩ = some o1 ∧
      Get o1.trie "y" = some [1] ∧ registered o1.trie "x" 2 = true ∧
      registered o1.trie "x" 1 = false) ∧
    (∃ o1, pub 4 { quietEnv (fun _ => 0) with recv := fun k c => decide (c = 2 ∧ k = 10) }
        (busOf true [("x", [1, 2]), ("unsub_x", [1])]) ⟨"x", Data.ref 7⟩ = some o1 ∧
      registered o1.trie "x" 2 = true) := by
  constructor
  · obtain ⟨o1, h1, h2, h3, _, _⟩ := eviction_frame (quietEnv (fun c => if c = 2 then 1 else 0))
      (busOf true [("x", [1, 2]), ("unsub_x", [1]), ("y", [1])]) ⟨"x", Data.ref 7⟩ 4 (by decide)
    have h5 := Option.some.inj (h1.symm.trans (rfl : _ = some
      ((pub 4 (quietEnv (fun c => if c = 2 then 1 else 0))
        (busOf true [("x", [1, 2]), ("unsub_x", [1]), ("y", [1])]) ⟨"x", Data.ref 7⟩).getD
          (New_bus true))))
    refine ⟨o1, h1,
      h2 "y" (fun k => ne_unsubIter_of_length "y" "x" (by decide) (by decide) k), ?_, ?_⟩
    · refine (h3 "x" 2 (by decide)).resolve_right ?_
      rw [h5]
      decide
    · rw [h5]
      decide
  · obtain ⟨o1, h1, _, h3, _, _⟩ := eviction_frame
      { quietEnv (fun _ => 0) with recv := fun k c => decide (c = 2 ∧ k = 10) }
      (busOf true [("x", [1, 2]), ("unsub_x", [1])]) ⟨"x", Data.ref 7⟩ 4 (by decide)
    have h5 := Option.some.inj (h1.symm.trans (rfl : _ = some
      ((pub 4 { quietEnv (fun _ => 0) with recv := fun k c => decide (c = 2 ∧ k = 10) }
        (busOf true [("x", [1, 2]), ("unsub_x", [1])]) ⟨"x", Data.ref 7⟩).getD (New_bus true))))
    refine ⟨o1, h1, (h3 "x" 2 (by decide)).resolve_right ?_⟩
    rw [h5]
    decide

/-- C9: once the cancellation signal has fired, a command handed to `pub` or to
`do_sub` (a message, an activation or a deactivation, in either policy) leaves
the registry unchanged, delivers nothing to any conduit and does not call the
Warner. -/
theorem cancelled_command_noop (e : Env) (o : Bus) (c : Cmd) (d : Nat)
    (h : e.fired o.clk = true) :
    ∃ o1, dispatch d e o c = some o1 ∧ o1.trie = o.trie ∧ o1.sent = o.sent ∧
      o1.len = o.len ∧ o1.warned = o.warned := by
  cases c with
  | msg m =>
    simp only [dispatch]
    rw [pub_eq, pub_body]
    split
    · cases e.order o.clk _ with
      | nil => exact ⟨o, rfl, rfl, rfl, rfl, rfl⟩
      | cons ch rest =>
        rw [pub_range]
        simp only [h, if_true]
        exact ⟨_, rfl, rfl, rfl, rfl, rfl⟩
    · exact ⟨o, rfl, rfl, rfl, rfl, rfl⟩
  | sub s =>
    simp only [dispatch]
    rw [do_sub_eq]
    split
    · cases s.topics with
      | nil => exact ⟨o, rfl, rfl, rfl, rfl, rfl⟩
      | cons t rest =>
        rw [do_sub_on]
        simp only [h, if_true]
        exact ⟨_, rfl, rfl, rfl, rfl, rfl⟩
    · cases s.topics with
      | nil => exact ⟨o, rfl, rfl, rfl, rfl, rfl⟩
      | cons t rest =>
        rw [do_sub_off]
        simp only [h, if_true]
        exact ⟨_, rfl, rfl, rfl, rfl, rfl⟩

theorem cancelled_command_noop_witness :
    ∃ o1, dispatch 0 { quietEnv (fun _ => 1) with fired := fun _ => true }
        (busOf true [("x", [1])]) (Cmd.sub ⟨["x", "y"], 2, true⟩) = some o1 ∧
      o1.trie = [("x", [1])] ∧ o1.sent = (busOf true [("x", [1])]).sent ∧
      o1.len = (busOf true [("x", [1])]).len ∧ o1.warned = [] :=
  cancelled_command_noop { quietEnv (fun _ => 1) with fired := fun _ => true }
    (busOf true [("x", [1])]) (Cmd.sub ⟨["x", "y"], 2, true⟩) 0 rfl

/-- C10: the mutual recursion of `pub` and `do_sub` terminates: `pub` returns
as soon as the evictions are allowed to nest as deep as the registry has
(topic, conduit) memberships, and `do_sub` as soon as they may nest as deep as
the memberships plus the topics of the batch; the registry never grows in
`pub`, and in drop mode the dispatcher does not park in a send, so the command
completes. -/
theorem pub_do_sub_terminate (e : Env) (o : Bus) :
    (∀ (m : Msg) (d : Nat), size o.trie ≤ d →
      ∃ o1, pub d e o m = some o1 ∧ size o1.trie ≤ size o.trie ∧
        (o.Drop_slow_consumers = true → o1.parked = o.parked)) ∧
    (∀ (s : subscription) (d : Nat), size o.trie + s.topics.length ≤ d →
      ∃ o1, do_sub d e o s = some o1 ∧
        (o.Drop_slow_consumers = true → o1.parked = o.parked)) := by
  constructor
  · intro m d hd
    obtain ⟨o1, h1⟩ := pub_total e d o m hd
    exact ⟨o1, h1, pub_rule e _ _ (steps_size e) d o m o1 trivial h1,
      fun h => (pub_rule e _ _ (steps_drop e) d o m o1 trivial h1 h).2⟩
  · intro s d hd
    obtain ⟨o1, h1⟩ := do_sub_total e d o s hd
    exact ⟨o1, h1, do_sub_drop_not_parked e d o s o1 h1⟩

theorem pub_do_sub_terminate_witness :
    (∃ o1, pub 2 (quietEnv (fun _ => 0)) (busOf true [("x", [1]), ("unsub_x", [1])])
        ⟨"x", Data.ref 7⟩ = some o1 ∧
      size o1.trie ≤ size (busOf true [("x", [1]), ("unsub_x", [1])]).trie ∧
      o1.parked = false) ∧
    (∃ o1, do_sub 3 (quietEnv (fun _ => 0)) (busOf true [("sub_a", [1])])
        { topics := ["a", "b"], c := 1, on_ := true } = some o1 ∧ o1.parked = false) :=
  ⟨((pub_do_sub_terminate (quietEnv (fun _ => 0))
      (busOf true [("x", [1]), ("unsub_x", [1])])).1 ⟨"x", Data.ref 7⟩ 2 (by decide)).imp
      (fun _ h => ⟨h.1, h.2.1, h.2.2 rfl⟩),
   ((pub_do_sub_terminate (quietEnv (fun _ => 0)) (busOf true [("sub_a", [1])])).2
      { topics := ["a", "b"], c := 1, on_ := true } 3 (by decide)).imp
      (fun _ h => ⟨h.1, h.2 rfl⟩)⟩

end Mbus
